import Mathlib

/-!
Verification of the Phoenix-RTOS EHCI host-controller driver core
(`src/usb/ehci/ehci.c`) against its natural-language specification.

The definitions below are a shallow embedding of the C source.  Machine
integers are modelled as `Nat` (all the arithmetic proved about stays far
below 2^32; where a bit field matters the masking is explicit).  The
repository's `ehci.h` header is not among the sources, so the descriptor
bit-layout constants it provides are modelled from the spec (EHCI register
and descriptor layout); each such constant is marked below.
-/

set_option maxRecDepth 100000
set_option maxHeartbeats 1000000

namespace Ehci

/-- Modelled from the spec: `EHCI_PAGE_SIZE` (4096), from the missing `ehci.h`. -/
def EHCI_PAGE_SIZE : Nat := 4096

/-- Modelled from the spec: `EHCI_QH_NBUFS` (five buffer pages per qTD). -/
def EHCI_QH_NBUFS : Nat := 5

/-- Modelled from the spec: `EHCI_TRANS_ERRORS` (retry count, 3). -/
def EHCI_TRANS_ERRORS : Nat := 3

/-- Modelled from the spec: qTD token Active bit (EHCI status bit 7). -/
def QTD_ACTIVE : Nat := 0x80

/-- Modelled from the spec: qTD token Halted bit (EHCI status bit 6). -/
def QTD_HALTED : Nat := 0x40

/-- Modelled from the spec: qTD token data-buffer-error bit (EHCI status bit 5). -/
def QTD_BUFERR : Nat := 0x20

/-- Modelled from the spec: qTD token babble bit (EHCI status bit 4). -/
def QTD_BABBLE : Nat := 0x10

/-- Modelled from the spec: qTD token transaction-error bit (EHCI status bit 3). -/
def QTD_XACT : Nat := 0x08

/-- Modelled from the spec: `QTD_LEN` extracts bits 16-30 of the token (remaining bytes). -/
def QTD_LEN (token : Nat) : Nat := (token >>> 16) &&& 0x7fff

/-- Modelled from the spec: libc `ENOMEM`. -/
def ENOMEM : Nat := 12

/-- Modelled from the spec: the T (terminate) sentinel for hardware link pointers. -/
def QH_PTR_INVALID : Nat := 1

/-- Modelled from the spec: `QH_PTR(qh)` - the physical address of a QH's hardware
block with the QH type bits.  QH ids are mapped to distinct 32-byte aligned
addresses; bit 1 is the EHCI QH type tag.  Injective and never equal to
`QH_PTR_INVALID`. -/
def QH_PTR (i : Nat) : Nat := 32 * i + 2

/-- Modelled from the spec: interrupt schedule S-mask selecting all eight microframes. -/
def QH_SMASK : Nat := 0xff

/-- Modelled from the spec: the C-mask "standard completion pattern" (bits 8-15 of info[1]). -/
def QH_CMASK : Nat := 0x1c <<< 8

/-- Modelled from the spec: high-speed value of the EPS field of info[0] (EHCI EPS=2 at bit 12). -/
def QH_HIGH_SPEED : Nat := 2 <<< 12

/-- Modelled from the spec: the DTC (data-toggle from qTD) bit of info[0]. -/
def QH_DT : Nat := 1 <<< 14

/-- Modelled from the spec: the C (control endpoint, non-high-speed) bit of info[0]. -/
def QH_CTRL : Nat := 1 <<< 27

/-- Modelled from the spec: EHCI EPS encoding of the device speeds (full=0, low=1, high=2). -/
def usb_high_speed : Nat := 2

/-- Modelled from the spec: EHCI EPS encoding, full speed. -/
def usb_full_speed : Nat := 0

/-- Modelled from the spec: EHCI PID code for OUT transactions. -/
def out_token : Nat := 0

/-- Modelled from the spec: EHCI PID code for IN transactions. -/
def in_token : Nat := 1

/-- Modelled from the spec: EHCI PID code for SETUP transactions. -/
def setup_token : Nat := 2

/-- `EHCI_PERIODIC_SIZE` (ehci.c:40-44): 128 on the `EHCI_IMX` build, 1024 otherwise.
The theorems below do not depend on which value is used; the smaller one is chosen. -/
def EHCI_PERIODIC_SIZE : Nat := 128

/-- The C `(unsigned)-1` initial value of `best` in `ehci_bandAlloc`. -/
def UINT_MAX : Nat := 4294967295

/-! ## qTD buffer building (`ehci_qtdAlloc`, ehci.c:202-256)

`ehci_qtdBytes` computes the `bytes` variable of `ehci_qtdAlloc` for a
non-null buffer: the number of bytes the qTD consumes.  `addr` is the
physical address of the buffer start (`qtd->hw->buf[0]`), `size` the
remaining byte count passed by reference, `maxpacksz` the endpoint's max
packet size. -/

/-- One iteration of the buffer-page loop of `ehci_qtdAlloc` (ehci.c:233-244):
`offs = min(*size - bytes, EHCI_PAGE_SIZE)`, with the fifth-page truncation
`offs = (((bytes + offs) / maxpacksz) * maxpacksz) - bytes` when the fifth
buffer would not exhaust the remaining count; a loop entry with
`bytes == *size` does nothing (the C loop guard has already stopped). -/
def ehci_qtdBufStep (maxpacksz size : Nat) (bytes : Nat) (i : Nat) : Nat :=
  if bytes ≠ size then
    let offs := min (size - bytes) EHCI_PAGE_SIZE
    let offs := if i = EHCI_QH_NBUFS - 1 ∧ bytes + offs < size then
      (bytes + offs) / maxpacksz * maxpacksz - bytes
    else offs
    bytes + offs
  else bytes

/-- The total byte count of one qTD (`bytes` at ehci.c:251): first page
consumes `min(EHCI_PAGE_SIZE - QTD_OFFSET(buf), *size)` (ehci.c:229), then
pages 1..4 run `ehci_qtdBufStep`. -/
def ehci_qtdBytes (addr size maxpacksz : Nat) : Nat :=
  let offs := min (EHCI_PAGE_SIZE - addr % EHCI_PAGE_SIZE) size
  List.foldl (ehci_qtdBufStep maxpacksz size) offs [1, 2, 3, 4]

/-- The token word assembled at ehci.c:220:
`(datax << 31) | (pid << 8) | (EHCI_TRANS_ERRORS << 10) | QTD_ACTIVE`. -/
def ehci_qtdAllocToken (datax pid : Nat) : Nat :=
  (datax <<< 31) ||| (pid <<< 8) ||| (EHCI_TRANS_ERRORS <<< 10) ||| QTD_ACTIVE

/-- The hardware-visible outcome of `ehci_qtdAlloc` on a non-null buffer:
the final token (`token |= bytes << 16`, ehci.c:251) and the updated
remaining count (`*size -= bytes`, ehci.c:252). -/
def ehci_qtdAllocHw (datax pid addr size maxpacksz : Nat) : Nat × Nat :=
  let bytes := ehci_qtdBytes addr size maxpacksz
  (ehci_qtdAllocToken datax pid ||| (bytes <<< 16), size - bytes)

/-- Modelled from the spec: the per-qTD byte count in closed form.  The spec's
per-page rule - `min(remaining, bytes-to-end-of-first-page)` for the first
page and `min(remaining, 4096)` for each following page - sums to
`min size (page0 + 4*4096)`; and when the fifth buffer page does not exhaust
`remaining` the total is truncated down to a whole multiple of
`maxPacketSize`. -/
def spec_qtdBytes (addr size maxpacksz : Nat) : Nat :=
  let untruncated := min size (EHCI_PAGE_SIZE - addr % EHCI_PAGE_SIZE + 4 * EHCI_PAGE_SIZE)
  if untruncated < size then untruncated / maxpacksz * maxpacksz else untruncated

/-! ## Completion classification (`ehci_qtdsCheck`, ehci.c:566-594)

The transfer's qTD ring is modelled by the nonempty list of its token
words in ring order starting at `t->hcdpriv`; the `do`/`while` walk visits
each element once and `qtds->prev` after the walk is the last element. -/

/-- The per-qTD error test of ehci.c:575: any of XACT, BABBLE, BUFERR, HALTED. -/
def ehci_qtdError (token : Nat) : Bool :=
  token &&& (QTD_XACT ||| QTD_BABBLE ||| QTD_BUFERR ||| QTD_HALTED) ≠ 0

/-- The `error` counter accumulated by the ring walk (ehci.c:573-580). -/
def ehci_qtdsErrors (ring : List Nat) : Nat := ring.countP (fun tok => ehci_qtdError tok)

/-- `ehci_qtdsCheck` (ehci.c:566-594): returns `(finished, *status)`.
`ring` is the list of token words, `tsize` is `t->size`.  After the walk,
`error > 0` sets `finished` and `*status = -error` (ehci.c:582-585); then,
independently, if the last qTD is not active or is halted, `finished` is set
and `*status = t->size - QTD_LEN(last token)` (ehci.c:588-591), overwriting
the error status. -/
def ehci_qtdsCheck (ring : List Nat) (tsize : Nat) : Bool × Int :=
  let error := ehci_qtdsErrors ring
  let finished := decide (0 < error)
  let status : Int := if 0 < error then -(error : Int) else 0
  let last := ring.getLastD 0
  if (last &&& QTD_ACTIVE = 0) ∨ (last &&& QTD_HALTED ≠ 0) then
    (true, (tsize : Int) - (QTD_LEN last : Int))
  else
    (finished, status)

/-! ## Descriptor pools (`ehci_qtdGet`/`ehci_qtdsPut`, ehci.c:134-171,
`ehci_qhGet`/`ehci_qhPut`, ehci.c:259-293)

A pool is the free list together with its counter (`nqtds` resp. `nqhs`).
Descriptors are identified by `Nat` ids.  `LIST_ADD` appends at the tail
(before the head of the circular list); taking `ehci->qtdPool` and
`LIST_REMOVE`-ing it removes the head, so `get` pops the head and the
overflow destruction in the put paths destroys the head. -/

structure DescPool where
  pool : List Nat
  n : Nat
deriving DecidableEq, Repr

/-- `ehci_qtdGet` (ehci.c:134-148): pop the pool head and decrement `nqtds`;
return `none` and leave the pool unchanged when it is empty. -/
def ehci_qtdGet (p : DescPool) : Option Nat × DescPool :=
  match p.pool with
  | [] => (none, p)
  | q :: rest => (some q, ⟨rest, p.n - 1⟩)

/-- The body of the `ehci_qtdsPut` loop (ehci.c:156-169) for one descriptor:
if `nqtds >= EHCI_MAX_QTD_POOL`, destroy the pool head (free its hardware
block and record) and decrement; then append the released descriptor and
increment. -/
def ehci_qtdPutOne (maxPool : Nat) (p : DescPool) (q : Nat) : DescPool :=
  let p := if maxPool ≤ p.n then ⟨p.pool.tail, p.n - 1⟩ else p
  ⟨p.pool ++ [q], p.n + 1⟩

/-- `ehci_qtdsPut` (ehci.c:151-171): drain the given ring into the pool,
one descriptor at a time. -/
def ehci_qtdsPut (maxPool : Nat) (p : DescPool) (qs : List Nat) : DescPool :=
  qs.foldl (ehci_qtdPutOne maxPool) p

/-- `ehci_qhGet` (ehci.c:259-273): same shape as `ehci_qtdGet` for the QH pool. -/
def ehci_qhGet (p : DescPool) : Option Nat × DescPool :=
  match p.pool with
  | [] => (none, p)
  | q :: rest => (some q, ⟨rest, p.n - 1⟩)

/-- `ehci_qhPut` (ehci.c:276-293): destroy the pool head when
`nqhs >= EHCI_MAX_QH_POOL`, then append the released QH and increment. -/
def ehci_qhPut (maxPool : Nat) (p : DescPool) (q : Nat) : DescPool :=
  let p := if maxPool ≤ p.n then ⟨p.pool.tail, p.n - 1⟩ else p
  ⟨p.pool ++ [q], p.n + 1⟩

/-- The pool-facing effect of the reuse-or-allocate step of `ehci_qtdAlloc`
(ehci.c:208-218): try `ehci_qtdGet`; on a pool miss fall back to `malloc` +
`usb_alloc`, modelled by `mallocOk` (the environment) handing out the fresh
id `freshId`.  Returns `none` when both fail. -/
def ehci_qtdAllocPool (p : DescPool) (freshId : Nat) (mallocOk : Bool) :
    Option (Nat × DescPool) :=
  match ehci_qtdGet p with
  | (some q, p') => some (q, p')
  | (none, p') => if mallocOk then some (freshId, p') else none

/-- The pool-facing effect of `ehci_qhAlloc` (ehci.c:296-309), as for
`ehci_qtdAllocPool`. -/
def ehci_qhAllocPool (p : DescPool) (freshId : Nat) (mallocOk : Bool) :
    Option (Nat × DescPool) :=
  match ehci_qhGet p with
  | (some q, p') => some (q, p')
  | (none, p') => if mallocOk then some (freshId, p') else none

/-- Pool well-formedness: the counter counts the free list, and stays
within the cap. -/
def poolWF (maxPool : Nat) (p : DescPool) : Prop :=
  p.n = p.pool.length ∧ p.n ≤ maxPool

/-- A client-visible pool operation: an alloc attempt (get) or a release. -/
inductive PoolOp where
  | get : PoolOp
  | put : Nat → PoolOp
deriving DecidableEq, Repr

/-- One pool operation, for the qTD pool. -/
def qtdPoolStep (maxPool : Nat) (p : DescPool) : PoolOp → DescPool
  | PoolOp.get => (ehci_qtdGet p).2
  | PoolOp.put q => ehci_qtdPutOne maxPool p q

/-- One pool operation, for the QH pool. -/
def qhPoolStep (maxPool : Nat) (p : DescPool) : PoolOp → DescPool
  | PoolOp.get => (ehci_qhGet p).2
  | PoolOp.put q => ehci_qhPut maxPool p q

/-! ## Transfer submission (`ehci_transferEnqueue`, ehci.c:730-810)

The driver state tracked here is what the submission path touches: the two
descriptor pools, the malloc environment (a success budget and a fresh-id
counter), which QHs are linked into which schedule, the in-flight transfer
list, and the log of `ehci_enqueue` calls (which qTD ring was appended to
which QH).  The descriptor *contents* built along the way are modelled by
`ehci_qtdAllocHw` and `ehci_qhConf`/`ehci_qhLinkPeriodic` below; this
record models allocation, linkage and registration. -/

inductive TrType where
  | control : TrType
  | bulk : TrType
  | interrupt : TrType
deriving DecidableEq, Repr

inductive TrDir where
  | dirIn : TrDir
  | dirOut : TrDir
deriving DecidableEq, Repr

structure HcdSt where
  qtds : DescPool
  qhs : DescPool
  budget : Nat
  fresh : Nat
  asyncLinked : List Nat
  periodicLinked : List Nat
  transfers : List Nat
  pending : List (Nat × List Nat)
deriving DecidableEq, Repr

structure TransferM where
  typ : TrType
  dir : TrDir
  size : Nat
  buf : Option Nat
  setupAddr : Nat
  hcdpriv : Option (List Nat)
deriving DecidableEq, Repr

structure PipeM where
  hcdpriv : Option Nat
  maxPacketLen : Nat
deriving DecidableEq, Repr

/-- `ehci_qtdAlloc`'s allocation step inside the submission path: reuse from
the qTD pool, else consume one unit of malloc budget for a fresh id. -/
def ehci_allocQtd (s : HcdSt) : Option (Nat × HcdSt) :=
  match ehci_qtdGet s.qtds with
  | (some q, p) => some (q, { s with qtds := p })
  | (none, _) =>
    if 0 < s.budget then
      some (s.fresh, { s with budget := s.budget - 1, fresh := s.fresh + 1 })
    else none

/-- `ehci_qhAlloc`'s allocation step, as for `ehci_allocQtd`. -/
def ehci_allocQh (s : HcdSt) : Option (Nat × HcdSt) :=
  match ehci_qhGet s.qhs with
  | (some q, p) => some (q, { s with qhs := p })
  | (none, _) =>
    if 0 < s.budget then
      some (s.fresh, { s with budget := s.budget - 1, fresh := s.fresh + 1 })
    else none

/-- The loop of `ehci_qtdAdd` (ehci.c:702-716), with the allocation oracle
threaded through.  `buf` is the data pointer (`none` models the NULL buffer
of the status stage), `remaining` the loop variable, `list` the ring built
so far (`LIST_ADD` appends).  The per-iteration byte consumption is
`ehci_qtdBytes` at `buf + size - remaining` (ehci.c:708), exactly the
`ehci_qtdAlloc` buffer walk.  Returns `(ok, ring, state)`; `ok = false`
is the `-ENOMEM` exit with the partial ring.  The fuel starts at
`size + 1`, which dominates the iteration count since every iteration with
a nonzero `remaining` consumes at least one byte; running out of fuel is
collapsed onto the allocation-failure exit and is not reached in any
theorem below. -/
def ehci_qtdAddGo (maxpacksz : Nat) (buf : Option Nat) (size : Nat) (dt : Nat)
    (fuel remaining : Nat) (list : List Nat) (s : HcdSt) : Bool × List Nat × HcdSt :=
  match fuel with
  | 0 => (false, list, s)
  | fuel + 1 =>
    (ehci_allocQtd s).elim (false, list, s) (fun qs =>
      let q := qs.1
      let s := qs.2
      let bytes := (buf.map (fun a => ehci_qtdBytes (a + (size - remaining)) remaining
        maxpacksz)).getD 0
      let list := list ++ [q]
      let remaining := remaining - bytes
      if 0 < remaining then ehci_qtdAddGo maxpacksz buf size (1 - dt) fuel remaining list s
      else (true, list, s))

/-- `ehci_qtdAdd` (ehci.c:702-716). -/
def ehci_qtdAdd (maxpacksz : Nat) (buf : Option Nat) (size dt : Nat)
    (list : List Nat) (s : HcdSt) : Bool × List Nat × HcdSt :=
  ehci_qtdAddGo maxpacksz buf size dt (size + 1) size list s

/-- The QH resolution step of `ehci_transferEnqueue` (ehci.c:739-760): when
the pipe has no QH, allocate one (failing with `none` = `-ENOMEM`),
configure it, store it in `pipe->hcdpriv` and link it into the async
(bulk/control) or periodic (interrupt) schedule; otherwise use the existing
QH (the address/maxPacketLen refresh touches only the QH's info word,
modelled by `ehci_qhConf` below). -/
def enqResolveQh (s : HcdSt) (t : TransferM) (pipe : PipeM) :
    Option (Nat × HcdSt × PipeM) :=
  match pipe.hcdpriv with
  | some qh => some (qh, s, pipe)
  | none =>
    match ehci_allocQh s with
    | none => none
    | some (qh, s) =>
      let pipe := { pipe with hcdpriv := some qh }
      let s := if t.typ = TrType.bulk ∨ t.typ = TrType.control then
          { s with asyncLinked := s.asyncLinked ++ [qh] }
        else
          { s with periodicLinked := s.periodicLinked ++ [qh] }
      some (qh, s, pipe)

/-- The setup stage (ehci.c:763-769): for control transfers, build the
SETUP qTD (8 bytes = `sizeof(usb_setup_packet_t)`, data toggle 0). -/
def enqSetupStage (mps : Nat) (t : TransferM) (s : HcdSt) : Bool × List Nat × HcdSt :=
  if t.typ = TrType.control then ehci_qtdAdd mps (some t.setupAddr) 8 0 [] s
  else (true, [], s)

/-- The data stage (ehci.c:772-779): control with a nonzero size, bulk, or
interrupt transfers append data qTDs with initial data toggle 1. -/
def enqDataStage (mps : Nat) (t : TransferM) (qtds : List Nat) (s : HcdSt) :
    Bool × List Nat × HcdSt :=
  if (t.typ = TrType.control ∧ 0 < t.size) ∨ t.typ = TrType.bulk ∨ t.typ = TrType.interrupt then
    ehci_qtdAdd mps t.buf t.size 1 qtds s
  else (true, qtds, s)

/-- The status stage (ehci.c:782-789): for control transfers, a zero-length
qTD with a NULL buffer and the opposite direction. -/
def enqStatusStage (mps : Nat) (t : TransferM) (qtds : List Nat) (s : HcdSt) :
    Bool × List Nat × HcdSt :=
  if t.typ = TrType.control then ehci_qtdAdd mps none 0 1 qtds s
  else (true, qtds, s)

/-- `ehci_transferEnqueue` (ehci.c:730-810) for a non-roothub pipe
(the roothub dispatch at ehci.c:736-737 is outside this model).  Returns
`(code, driver state, transfer, pipe)`.  Every stage failure releases the
partial ring with `ehci_qtdsPut`, clears `t->hcdpriv` and returns
`-ENOMEM`; an empty ring returns `-1`; otherwise the ring is stored in
`t->hcdpriv`, the transfer is appended to `hcd->transfers` and the ring is
handed to `ehci_enqueue` (logged in `pending`), returning 0. -/
def ehci_transferEnqueue (maxQtdPool : Nat) (s : HcdSt) (t : TransferM)
    (pipe : PipeM) (tid : Nat) : Int × HcdSt × TransferM × PipeM :=
  match enqResolveQh s t pipe with
  | none => (-(ENOMEM : Int), s, t, pipe)
  | some (qh, s, pipe) =>
    match enqSetupStage pipe.maxPacketLen t s with
    | (false, qtds, s) =>
      (-(ENOMEM : Int), { s with qtds := ehci_qtdsPut maxQtdPool s.qtds qtds },
        { t with hcdpriv := none }, pipe)
    | (true, qtds, s) =>
      match enqDataStage pipe.maxPacketLen t qtds s with
      | (false, qtds, s) =>
        (-(ENOMEM : Int), { s with qtds := ehci_qtdsPut maxQtdPool s.qtds qtds },
          { t with hcdpriv := none }, pipe)
      | (true, qtds, s) =>
        match enqStatusStage pipe.maxPacketLen t qtds s with
        | (false, qtds, s) =>
          (-(ENOMEM : Int), { s with qtds := ehci_qtdsPut maxQtdPool s.qtds qtds },
            { t with hcdpriv := none }, pipe)
        | (true, qtds, s) =>
          if qtds = [] then (-1, s, t, pipe)
          else
            (0, { s with transfers := s.transfers ++ [tid],
                         pending := s.pending ++ [(qh, qtds)] },
              { t with hcdpriv := some qtds }, pipe)

/-! ## QH configuration and the periodic/async schedules
(`ehci_qhConf` ehci.c:335-362, `ehci_bandAlloc` ehci.c:365-407,
`ehci_qhLinkPeriodic` ehci.c:410-449, `ehci_qhUnlinkPeriodic`
ehci.c:504-542, `ehci_qhLinkAsync` ehci.c:452-470, `ehci_qhUnlinkAsync`
ehci.c:486-501)

QHs are identified by `Nat` ids; a schedule state maps each id to its
record (hardware `info` words and horizontal pointer, driver `next`/`prev`
links, `period`, `uframe`, `phase`).  The chain walks of the C code follow
`next` pointers and are given fuel; the C code does not terminate on a
cyclic chain, and no theorem below exhausts the fuel. -/

structure QHrec where
  info0 : Nat
  info1 : Nat
  horizontal : Nat
  next : Option Nat
  prev : Option Nat
  period : Nat
  uframe : Nat
  phase : Nat
deriving DecidableEq, Repr

/-- The field state of a QH fresh out of `ehci_qhAlloc` (ehci.c:311-329). -/
def ehci_qhAllocRec : QHrec :=
  { info0 := 0, info1 := 0, horizontal := QH_PTR_INVALID,
    next := none, prev := none, period := 0, uframe := 0, phase := 0 }

structure PipeConf where
  devAddress : Nat
  num : Nat
  speed : Nat
  typ : TrType
  maxPacketLen : Nat
  interval : Nat
deriving DecidableEq, Repr

/-- The `while (qh->period * 2 < pipe->interval) qh->period *= 2;` loop of
`ehci_qhConf` (ehci.c:357-359), starting from `qh->period = 1`.  The fuel
bounds the doubling; `fslsPeriodGo_ge` below shows that fuel `interval`
always lets the loop run until its guard is false. -/
def fslsPeriodGo (interval : Nat) : Nat → Nat → Nat
  | 0, p => p
  | fuel + 1, p => if p * 2 < interval then fslsPeriodGo interval fuel (p * 2) else p

/-- `ehci_qhConf` (ehci.c:335-362): assemble info[0], zero info[1], and for
interrupt pipes derive `period` from `bInterval` - high speed:
`((1 << (interval - 1))) >> 3` rounded up to 1; full/low speed: the
doubling loop. -/
def ehci_qhConf (pipe : PipeConf) (qh : QHrec) : QHrec :=
  let info0 := pipe.devAddress
  let info0 := info0 ||| (pipe.num <<< 8)
  let info0 := info0 ||| (pipe.speed <<< 12)
  let info0 := info0 ||| (if pipe.typ = TrType.control then QH_DT else 0)
  let info0 := info0 ||| (pipe.maxPacketLen <<< 16)
  let info0 := if pipe.typ = TrType.control ∧ pipe.speed ≠ usb_high_speed then
      info0 ||| QH_CTRL
    else info0
  let info0 := info0 ||| (3 <<< 28)
  let period :=
    if pipe.typ = TrType.interrupt then
      if pipe.speed = usb_high_speed then
        let p := (1 <<< (pipe.interval - 1)) >>> 3
        if p = 0 then 1 else p
      else
        fslsPeriodGo pipe.interval pipe.interval 1
    else qh.period
  { qh with info0 := info0, info1 := 0, period := period }

structure PerSt where
  qhs : Nat → QHrec
  periodicList : Nat → Nat
  periodicNodes : Nat → Option Nat

/-- Pointwise update of the QH map. -/
def updQ (f : Nat → QHrec) (i : Nat) (v : QHrec) : Nat → QHrec :=
  fun j => if j = i then v else f j

/-- The empty periodic schedule as `ehci_init` leaves it (ehci.c:933-934):
every frame-list slot `QH_PTR_INVALID`, every owner slot empty. -/
def periodicInit (qhs : Nat → QHrec) : PerSt :=
  { qhs := qhs, periodicList := fun _ => QH_PTR_INVALID, periodicNodes := fun _ => none }

/-- Fuel for the chain walks; no chain in any theorem below is longer. -/
def EHCI_CHAIN_FUEL : Nat := EHCI_PERIODIC_SIZE

/-- The chain-length count of `ehci_bandAlloc` (ehci.c:379-383). -/
def chainCount (st : PerSt) : Option Nat → Nat → Nat
  | none, _ => 0
  | some _, 0 => 0
  | some i, fuel + 1 => 1 + chainCount st (st.qhs i).next fuel

/-- The microframe histogram of `ehci_bandAlloc` (ehci.c:393-396): walk the
chain and count each member whose `uframe` is not `0xff`. -/
def ucntWalk (st : PerSt) : Option Nat → Nat → (Nat → Nat) → (Nat → Nat)
  | none, _, acc => acc
  | some _, 0, acc => acc
  | some i, fuel + 1, acc =>
    let u := (st.qhs i).uframe
    let acc := if u ≠ 0xff then (fun j => if j = u then acc j + 1 else acc j) else acc
    ucntWalk st (st.qhs i).next fuel acc

/-- `ehci_bandAlloc` (ehci.c:365-407): choose the least-loaded phase among
`[0, min(period, EHCI_PERIODIC_SIZE))` (ties: lowest index), then - only
for high-speed QHs with `period > 1` - the least-loaded microframe;
otherwise `uframe` stays `0xff`. -/
def ehci_bandAlloc (st : PerSt) (qh : QHrec) : QHrec :=
  let qh := { qh with phase := 0, uframe := 0xff }
  let bp := (List.range (min qh.period EHCI_PERIODIC_SIZE)).foldl
    (fun (acc : Nat × QHrec) i =>
      let n := chainCount st (st.periodicNodes i) EHCI_CHAIN_FUEL
      if n < acc.1 then (n, { acc.2 with phase := i }) else acc)
    (UINT_MAX, qh)
  let qh := bp.2
  if qh.info0 &&& QH_HIGH_SPEED ≠ 0 ∧ 1 < qh.period then
    let ucnt := ucntWalk st (st.periodicNodes qh.phase) EHCI_CHAIN_FUEL (fun _ => 0)
    let bu := (List.range 8).foldl
      (fun (acc : Nat × QHrec) i =>
        if ucnt i < acc.1 then (ucnt i, { acc.2 with uframe := i }) else acc)
      (UINT_MAX, { qh with uframe := 0 })
    bu.2
  else qh

/-- The insertion-point walk of `ehci_qhLinkPeriodic` (ehci.c:422-424):
`while (t && t->next && t->next->period >= qh->period) t = t->next`. -/
def linkWalk (st : PerSt) (period : Nat) : Option Nat → Nat → Option Nat
  | none, _ => none
  | some t, 0 => some t
  | some t, fuel + 1 =>
    match (st.qhs t).next with
    | none => some t
    | some nx => if period ≤ (st.qhs nx).period then linkWalk st period (some nx) fuel
      else some t

/-- The slot set of the head-insertion loop of `ehci_qhLinkPeriodic`
(ehci.c:430): `for (i = qh->phase; i < EHCI_PERIODIC_SIZE; i += qh->period)`,
as a predicate (meaningful for `period >= 1`). -/
def inPhaseClass (phase period i : Nat) : Prop :=
  phase ≤ i ∧ i < EHCI_PERIODIC_SIZE ∧ (i - phase) % period = 0

instance (phase period i : Nat) : Decidable (inPhaseClass phase period i) := by
  unfold inPhaseClass; infer_instance

/-- Modelled from the spec: `QH_PTR` applied to a driver pointer that may be
NULL.  At ehci.c:439 the source dereferences `qh->next` without a NULL
check; the `none` case is given an arbitrary value and is exercised by no
theorem. -/
def QH_PTRopt : Option Nat → Nat
  | some i => QH_PTR i
  | none => QH_PTR 0

/-- `ehci_qhLinkPeriodic` (ehci.c:410-449): run `ehci_bandAlloc`, set
info[1] from the chosen microframe (`1 << uframe`, or `QH_SMASK` when
`uframe == 0xff`) or-ed with `QH_CMASK`, walk to the insertion point and
either become the new head of every slot of the phase class or splice in
behind `t`; a new last element or-s `QH_PTR_INVALID` into its horizontal
pointer. -/
def ehci_qhLinkPeriodic (st : PerSt) (qhId : Nat) : PerSt :=
  let qh := ehci_bandAlloc st (st.qhs qhId)
  let qh := { qh with
    info1 := (if qh.uframe ≠ 0xff then 1 <<< qh.uframe else QH_SMASK) ||| QH_CMASK }
  let tOpt := linkWalk st qh.period (st.periodicNodes qh.phase) EHCI_CHAIN_FUEL
  let newFirst := match tOpt with
    | none => true
    | some t => decide ((st.qhs t).period < qh.period)
  if newFirst then
    let qh := { qh with next := st.periodicNodes qh.phase }
    let qh := if qh.next = none then
        { qh with horizontal := qh.horizontal ||| QH_PTR_INVALID }
      else qh
    { st with
      qhs := updQ st.qhs qhId qh,
      periodicNodes := fun i =>
        if inPhaseClass qh.phase qh.period i then some qhId else st.periodicNodes i,
      periodicList := fun i =>
        if inPhaseClass qh.phase qh.period i then QH_PTR qhId else st.periodicList i }
  else
    let t := tOpt.getD 0
    let tRec := st.qhs t
    let qh := { qh with next := tRec.next }
    let qh := { qh with horizontal := QH_PTRopt qh.next }
    let qh := if qh.next = none then
        { qh with horizontal := qh.horizontal ||| QH_PTR_INVALID }
      else qh
    let tRec := { tRec with next := some qhId, horizontal := QH_PTR qhId }
    { st with qhs := updQ (updQ st.qhs qhId qh) t tRec }

/-- The successor pointer written by `ehci_qhUnlinkPeriodic`
(ehci.c:517-522, 531-536): `QH_PTR(next)` when the victim has a successor,
`QH_PTR_INVALID` otherwise. -/
def QH_PTRterm : Option Nat → Nat
  | some n => QH_PTR n
  | none => QH_PTR_INVALID

/-- The predecessor search of `ehci_qhUnlinkPeriodic` (ehci.c:526-527):
`while (tmp && tmp->next != qh) tmp = tmp->next`, returning the node whose
`next` is the victim, if any. -/
def predWalk (st : PerSt) (qhId : Nat) : Option Nat → Nat → Option Nat
  | none, _ => none
  | some _, 0 => none
  | some t, fuel + 1 =>
    if (st.qhs t).next = some qhId then some t
    else predWalk st qhId (st.qhs t).next fuel

/-- One slot of the `ehci_qhUnlinkPeriodic` scan (ehci.c:512-539): when the
victim heads the slot, rewrite the slot to its successor (or
`QH_PTR_INVALID`); otherwise redirect a predecessor's `next` and horizontal
pointer, if one is found. -/
def ehci_qhUnlinkPeriodicStep (qhId : Nat) (st : PerSt) (i : Nat) : PerSt :=
  let qnext := (st.qhs qhId).next
  if st.periodicNodes i = some qhId then
    { st with
      periodicList := fun j => if j = i then QH_PTRterm qnext else st.periodicList j,
      periodicNodes := fun j => if j = i then qnext else st.periodicNodes j }
  else
    match predWalk st qhId (st.periodicNodes i) EHCI_CHAIN_FUEL with
    | some t =>
      let tRec := st.qhs t
      let tRec := { tRec with next := qnext, horizontal := QH_PTRterm qnext }
      { st with qhs := updQ st.qhs t tRec }
    | none => st

/-- `ehci_qhUnlinkPeriodic` (ehci.c:504-542): scan every slot. -/
def ehci_qhUnlinkPeriodic (st : PerSt) (qhId : Nat) : PerSt :=
  (List.range EHCI_PERIODIC_SIZE).foldl (ehci_qhUnlinkPeriodicStep qhId) st

/-- The async schedule: the QH records together with the id of the dummy
head QH allocated by `ehci_init` (ehci.c:924-931). -/
structure AsyncSt where
  qhs : Nat → QHrec
  headId : Nat

/-- `ehci_qhLinkAsync` (ehci.c:452-470): insert after the dummy head -
`qh->next = head->next; qh->prev = head; qh->next->prev = qh;
head->next = qh; qh->horizontal = head->horizontal;
head->horizontal = QH_PTR(qh)`, in source order (the driver list is
circular, so `head->next` is never NULL; a NULL there would be dereferenced
by the source and is left unchanged here). -/
def ehci_qhLinkAsync (st : AsyncSt) (qhId : Nat) : AsyncSt :=
  let headId := st.headId
  let s := st.qhs
  let oldHeadNext := (s headId).next
  let oldHeadHoriz := (s headId).horizontal
  let s := updQ s qhId { s qhId with next := oldHeadNext, prev := some headId }
  let s := match oldHeadNext with
    | some nx => updQ s nx { s nx with prev := some qhId }
    | none => s
  let s := updQ s headId { s headId with next := some qhId }
  let s := updQ s qhId { s qhId with horizontal := oldHeadHoriz }
  let s := updQ s headId { s headId with horizontal := QH_PTR qhId }
  { st with qhs := s }

/-- `ehci_qhUnlinkAsync` (ehci.c:486-501): with the schedule stopped,
`qh->prev->horizontal = qh->horizontal`, then splice the driver links
(`qh->prev->next = qh->next; qh->next->prev = qh->prev`).  NULL driver
links would be dereferenced by the source and are left unchanged here. -/
def ehci_qhUnlinkAsync (st : AsyncSt) (qhId : Nat) : AsyncSt :=
  let s := st.qhs
  let s := match (s qhId).prev with
    | some p => updQ s p { s p with horizontal := (s qhId).horizontal }
    | none => s
  let s := match (s qhId).prev with
    | some p => updQ s p { s p with next := (s qhId).next }
    | none => s
  let s := match (s qhId).next with
    | some nx => updQ s nx { s nx with prev := (s qhId).prev }
    | none => s
  { st with qhs := s }

/-! ## Concrete scenario states used by counterexamples and witnesses -/

/-- A full-speed interrupt pipe with the given `bInterval`. -/
def fsIntrPipe (interval : Nat) : PipeConf :=
  { devAddress := 0, num := 1, speed := usb_full_speed, typ := TrType.interrupt,
    maxPacketLen := 8, interval := interval }

/-- A high-speed interrupt pipe with the given `bInterval`. -/
def hsIntrPipe (interval : Nat) : PipeConf :=
  { devAddress := 0, num := 1, speed := usb_high_speed, typ := TrType.interrupt,
    maxPacketLen := 8, interval := interval }

/-- QH records for the periodic round-trip scenario: id 0 is a period-1
full-speed interrupt QH, every other id a period-2 one, all as
`ehci_qhAlloc` + `ehci_qhConf` produce them. -/
def c7qhs : Nat → QHrec := fun i =>
  if i = 0 then ehci_qhConf (fsIntrPipe 1) ehci_qhAllocRec
  else ehci_qhConf (fsIntrPipe 3) ehci_qhAllocRec

/-- The scenario state before the round trip: starting from the empty
periodic schedule, link QH 0 (period 1, lands on every slot), then QH 1
(period 2, becomes head of the even slots) and QH 2 (period 2, head of the
odd slots) - all driver states the link path itself produces. -/
def c7st3 : PerSt :=
  ehci_qhLinkPeriodic (ehci_qhLinkPeriodic (ehci_qhLinkPeriodic (periodicInit c7qhs) 0) 1) 2

/-- The scenario state after linking QH 3 (period 2; `ehci_bandAlloc`
chooses phase 0 and the walk splices it between QH 1 and QH 0) and
immediately unlinking it again. -/
def c7st5 : PerSt := ehci_qhUnlinkPeriodic (ehci_qhLinkPeriodic c7st3 3) 3

/-- An empty periodic schedule whose every QH record is a freshly
allocated QH configured for a high-speed interrupt pipe with bInterval 4. -/
def c3st : PerSt := periodicInit (fun _ => ehci_qhConf (hsIntrPipe 4) ehci_qhAllocRec)

/-! # Theorems -/

/-! ## C1 - completion classification -/

/-- C1, counterexample.  A transfer whose single qTD carries the HALTED
token bit (and is no longer active) with `t->size = 0`: the ring contains
one error qTD, `ehci_qtdsCheck` classifies the transfer as finished, but
the reported status is `t->size - QTD_LEN(last) = 0`, not `-1`: the
"finished, no error" re-check at ehci.c:588-591 overwrites the negative
error status whenever the last qTD is inactive or halted. -/
theorem C1_counterexample :
    ehci_qtdsErrors [QTD_HALTED] = 1 ∧
    ehci_qtdsCheck [QTD_HALTED] 0 = (true, 0) ∧
    (0 : Int) ≠ -1 := by
  decide

/-- C1, amended: if the qTD ring contains at least one qTD with an XACT,
BABBLE, BUFERR or HALTED token bit and the *last* qTD is still active and
not halted, then `ehci_qtdsCheck` classifies the transfer as finished with
status `-error_count`; when the last qTD is inactive or halted the status
is instead `t->size - QTD_LEN(last token)`. -/
theorem C1_qtdsCheck_error_status (ring : List Nat) (tsize : Nat)
    (herr : 0 < ehci_qtdsErrors ring)
    (hact : ring.getLastD 0 &&& QTD_ACTIVE ≠ 0)
    (hhal : ring.getLastD 0 &&& QTD_HALTED = 0) :
    ehci_qtdsCheck ring tsize = (true, -(ehci_qtdsErrors ring : Int)) := by
  unfold ehci_qtdsCheck
  rw [if_neg (by push_neg; exact ⟨hact, hhal⟩)]
  simp [herr]

/-- C1, witness: a two-qTD ring whose first qTD shows a transaction error
while the last one is still active: status is `-1`. -/
theorem C1_witness :
    0 < ehci_qtdsErrors [QTD_XACT, QTD_ACTIVE] ∧
    [QTD_XACT, QTD_ACTIVE].getLastD 0 &&& QTD_ACTIVE ≠ 0 ∧
    [QTD_XACT, QTD_ACTIVE].getLastD 0 &&& QTD_HALTED = 0 ∧
    ehci_qtdsCheck [QTD_XACT, QTD_ACTIVE] 7 = (true, -1) :=
  ⟨by decide, by decide, by decide,
    (C1_qtdsCheck_error_status [QTD_XACT, QTD_ACTIVE] 7 (by decide) (by decide)
      (by decide)).trans (by decide)⟩

/-! ## C4 - full/low-speed interrupt period -/

/-- C4, counterexample.  For a full-speed interrupt pipe with bInterval 4
the code computes period 2; but `2^0 = 1` is a power of two strictly less
than 4 that is itself smaller than 2, so 2 is not the *smallest* power of
two strictly below bInterval, contradicting the claim as stated. -/
theorem C4_counterexample :
    (ehci_qhConf (fsIntrPipe 4) ehci_qhAllocRec).period = 2 ∧
    (2 : Nat) ^ 0 < 4 ∧ (2 : Nat) ^ 0 < 2 := by
  decide

lemma fslsPeriodGo_pow (interval : Nat) :
    ∀ fuel p, (∃ k, p = 2 ^ k) → ∃ k, fslsPeriodGo interval fuel p = 2 ^ k := by
  intro fuel
  induction fuel with
  | zero => intro p h; exact h
  | succ n ih =>
    intro p h
    unfold fslsPeriodGo
    split
    · apply ih
      obtain ⟨k, rfl⟩ := h
      exact ⟨k + 1, by ring⟩
    · exact h

lemma fslsPeriodGo_lt (interval : Nat) :
    ∀ fuel p, p < interval → fslsPeriodGo interval fuel p < interval := by
  intro fuel
  induction fuel with
  | zero => intro p h; exact h
  | succ n ih =>
    intro p h
    unfold fslsPeriodGo
    split
    · exact ih _ (by omega)
    · exact h

lemma fslsPeriodGo_ge (interval : Nat) :
    ∀ fuel p, interval ≤ p * 2 ^ (fuel + 1) → interval ≤ 2 * fslsPeriodGo interval fuel p := by
  intro fuel
  induction fuel with
  | zero =>
    intro p h
    have h2 : p * 2 ^ (0 + 1) = 2 * p := by ring
    rw [h2] at h
    simpa [fslsPeriodGo] using h
  | succ n ih =>
    intro p h
    unfold fslsPeriodGo
    split
    · apply ih
      calc interval ≤ p * 2 ^ (n + 2) := h
        _ = p * 2 * 2 ^ (n + 1) := by ring
    · omega

lemma fslsPeriodGo_one (i : Nat) (hi : i ≤ 2) : ∀ fuel, fslsPeriodGo i fuel 1 = 1 := by
  intro fuel
  cases fuel with
  | zero => rfl
  | succ n =>
    unfold fslsPeriodGo
    rw [if_neg (by omega)]

/-- C4, amended: for a full- or low-speed interrupt pipe, the QH period
computed by `ehci_qhConf` is the *largest* power of two strictly less than
bInterval (so `bInterval ≤ 2 * period`), rounded up to 1 when
bInterval ≤ 2. -/
theorem C4_qhConf_period_fsls (pipe : PipeConf) (qh : QHrec)
    (htyp : pipe.typ = TrType.interrupt) (hspd : pipe.speed ≠ usb_high_speed) :
    (∃ k, (ehci_qhConf pipe qh).period = 2 ^ k) ∧
    pipe.interval ≤ 2 * (ehci_qhConf pipe qh).period ∧
    (2 ≤ pipe.interval → (ehci_qhConf pipe qh).period < pipe.interval) ∧
    (∀ m, 2 ^ m < pipe.interval → 2 ^ m ≤ (ehci_qhConf pipe qh).period) ∧
    (pipe.interval ≤ 2 → (ehci_qhConf pipe qh).period = 1) := by
  have hper : (ehci_qhConf pipe qh).period = fslsPeriodGo pipe.interval pipe.interval 1 := by
    simp [ehci_qhConf, htyp, hspd]
  rw [hper]
  have hpow := fslsPeriodGo_pow pipe.interval pipe.interval 1 ⟨0, rfl⟩
  have hge : pipe.interval ≤ 2 * fslsPeriodGo pipe.interval pipe.interval 1 := by
    apply fslsPeriodGo_ge
    have h1 : pipe.interval < 2 ^ pipe.interval := Nat.lt_two_pow pipe.interval
    have h2 : (2 : Nat) ^ pipe.interval ≤ 2 ^ (pipe.interval + 1) :=
      Nat.pow_le_pow_right (by omega) (by omega)
    omega
  refine ⟨hpow, hge, ?_, ?_, ?_⟩
  · intro h2
    exact fslsPeriodGo_lt pipe.interval pipe.interval 1 (by omega)
  · intro m hm
    obtain ⟨k, hk⟩ := hpow
    rw [hk] at hge ⊢
    have hlt : (2 : Nat) ^ m < 2 ^ (k + 1) := by
      have he : (2 : Nat) ^ (k + 1) = 2 * 2 ^ k := by ring
      omega
    have hmk : m < k + 1 := (Nat.pow_lt_pow_iff_right (by norm_num)).mp hlt
    exact Nat.pow_le_pow_right (by norm_num) (by omega)
  · intro h2
    exact fslsPeriodGo_one _ h2 _

/-- C4, witness: bInterval 5 gives period 4 = the largest power of two
strictly below 5. -/
theorem C4_witness :
    (fsIntrPipe 5).typ = TrType.interrupt ∧ (fsIntrPipe 5).speed ≠ usb_high_speed ∧
    (∃ k, (ehci_qhConf (fsIntrPipe 5) ehci_qhAllocRec).period = 2 ^ k) ∧
    5 ≤ 2 * (ehci_qhConf (fsIntrPipe 5) ehci_qhAllocRec).period ∧
    (2 ≤ 5 → (ehci_qhConf (fsIntrPipe 5) ehci_qhAllocRec).period < 5) :=
  ⟨by decide, by decide,
    (C4_qhConf_period_fsls (fsIntrPipe 5) ehci_qhAllocRec (by decide) (by decide)).1,
    (C4_qhConf_period_fsls (fsIntrPipe 5) ehci_qhAllocRec (by decide) (by decide)).2.1,
    (C4_qhConf_period_fsls (fsIntrPipe 5) ehci_qhAllocRec (by decide) (by decide)).2.2.1⟩

/-! ## C6 - alloc/free pairs and the pool counters -/

/-- C6, counterexample.  With an empty qTD pool (`nqtds = 0`) a successful
allocation takes the `malloc` path of `ehci_qtdAlloc` and leaves the
counter at 0; releasing that descriptor with `ehci_qtdsPut` then raises
`nqtds` to 1 ≠ 0, so the counters are *not* unchanged by every successful
alloc+free pair. -/
theorem C6_counterexample :
    ehci_qtdAllocPool ⟨[], 0⟩ 42 true = some (42, ⟨[], 0⟩) ∧
    (ehci_qtdsPut 4 ⟨[], 0⟩ [42]).n = 1 ∧ (1 : Nat) ≠ 0 := by
  decide

/-- `ehci_qhGet` and `ehci_qtdGet` are the same free-list operation. -/
lemma qhGet_eq_qtdGet : ehci_qhGet = ehci_qtdGet := rfl

/-- `ehci_qhPut` and the single-descriptor body of `ehci_qtdsPut` are the
same free-list operation. -/
lemma qhPut_eq_qtdPutOne : ehci_qhPut = ehci_qtdPutOne := rfl

/-- C6, amended: for a well-formed pool, an allocation *served from the
free pool* followed by a release of the same descriptor leaves the counter
(`nqtds` resp. `nqhs`) unchanged; an allocation that fell back to `malloc`
(empty pool) followed by a release below the cap instead grows the counter
by one. -/
theorem C6_alloc_put_counts (maxPool : Nat) (p : DescPool) (freshId : Nat)
    (hwf : p.n = p.pool.length) (hcap : p.n ≤ maxPool) :
    (p.pool ≠ [] → ∀ q p', ehci_qtdAllocPool p freshId true = some (q, p') →
      (ehci_qtdsPut maxPool p' [q]).n = p.n ∧ (ehci_qhPut maxPool p' q).n = p.n) ∧
    (p.pool = [] → p.n < maxPool → ∀ q p',
      ehci_qtdAllocPool p freshId true = some (q, p') →
      (ehci_qtdsPut maxPool p' [q]).n = p.n + 1 ∧ (ehci_qhPut maxPool p' q).n = p.n + 1) := by
  obtain ⟨pool, n⟩ := p
  dsimp only at hwf hcap
  constructor
  · intro hne q p' halloc
    match pool, hne, hwf with
    | x :: rest, _, hwf =>
      dsimp only [ehci_qtdAllocPool, ehci_qtdGet] at halloc
      rw [Option.some.injEq, Prod.mk.injEq] at halloc
      obtain ⟨hq, hp'⟩ := halloc
      subst hq
      subst hp'
      simp only [List.length_cons] at hwf
      have hlt : ¬ maxPool ≤ n - 1 := by omega
      rw [qhPut_eq_qtdPutOne]
      simp only [ehci_qtdsPut, List.foldl, ehci_qtdPutOne, if_neg hlt]
      constructor <;> omega
  · intro hnil hlt q p' halloc
    dsimp only at hlt
    subst hnil
    simp only [List.length_nil] at hwf
    subst hwf
    dsimp only [ehci_qtdAllocPool, ehci_qtdGet] at halloc
    rw [if_pos rfl, Option.some.injEq, Prod.mk.injEq] at halloc
    obtain ⟨hq, hp'⟩ := halloc
    subst hq
    subst hp'
    have hno : ¬ maxPool ≤ 0 := by omega
    rw [qhPut_eq_qtdPutOne]
    simp only [ehci_qtdsPut, List.foldl, ehci_qtdPutOne, if_neg hno]
    constructor <;> trivial

/-- C6, witness: pool `[3]` with counter 1, cap 2 - the alloc+free pair
leaves the counter at 1. -/
theorem C6_witness :
    (1 : Nat) = [3].length ∧ (1 : Nat) ≤ 2 ∧
    (ehci_qtdsPut 2 ⟨[], 0⟩ [3]).n = 1 ∧ (ehci_qhPut 2 ⟨[], 0⟩ 3).n = 1 :=
  ⟨by decide, by decide,
    ((C6_alloc_put_counts 2 ⟨[3], 1⟩ 9 (by decide) (by decide)).1 (by decide) 3 ⟨[], 0⟩
      (by decide)).1,
    ((C6_alloc_put_counts 2 ⟨[3], 1⟩ 9 (by decide) (by decide)).1 (by decide) 3 ⟨[], 0⟩
      (by decide)).2⟩

/-! ## C8 - pool cap invariant -/

lemma qtdGet_WF (maxPool : Nat) (p : DescPool) (hwf : poolWF maxPool p) :
    poolWF maxPool (ehci_qtdGet p).2 := by
  obtain ⟨pool, n⟩ := p
  obtain ⟨hl, hc⟩ := hwf
  dsimp only at hl hc
  cases pool with
  | nil => exact ⟨hl, hc⟩
  | cons x rest =>
    simp only [List.length_cons] at hl
    dsimp only [ehci_qtdGet]
    exact ⟨by dsimp only; omega, by dsimp only; omega⟩

lemma qtdPutOne_WF (maxPool : Nat) (hm : 1 ≤ maxPool) (p : DescPool) (q : Nat)
    (hwf : poolWF maxPool p) : poolWF maxPool (ehci_qtdPutOne maxPool p q) := by
  obtain ⟨pool, n⟩ := p
  obtain ⟨hl, hc⟩ := hwf
  dsimp only at hl hc
  simp only [ehci_qtdPutOne]
  by_cases h : maxPool ≤ n
  · rw [if_pos h]
    have hp1 : 1 ≤ pool.length := by
      cases pool with
      | nil => simp at hl; omega
      | cons a l => simp
    refine ⟨?_, by dsimp only; omega⟩
    dsimp only
    simp only [List.length_append, List.length_tail, List.length_cons, List.length_nil]
    omega
  · rw [if_neg h]
    refine ⟨?_, by dsimp only; omega⟩
    dsimp only
    simp only [List.length_append, List.length_cons, List.length_nil]
    omega

lemma qtdPoolStep_WF (maxPool : Nat) (hm : 1 ≤ maxPool) (p : DescPool) (op : PoolOp)
    (hwf : poolWF maxPool p) : poolWF maxPool (qtdPoolStep maxPool p op) := by
  cases op with
  | get => exact qtdGet_WF maxPool p hwf
  | put q => exact qtdPutOne_WF maxPool hm p q hwf

lemma qtdPoolFold_WF (maxPool : Nat) (hm : 1 ≤ maxPool) :
    ∀ (ops : List PoolOp) (p : DescPool), poolWF maxPool p →
      poolWF maxPool (ops.foldl (qtdPoolStep maxPool) p) := by
  intro ops
  induction ops with
  | nil => intro p hwf; exact hwf
  | cons op rest ih =>
    intro p hwf
    exact ih _ (qtdPoolStep_WF maxPool hm p op hwf)

lemma qhPoolStep_eq_qtdPoolStep : qhPoolStep = qtdPoolStep := by
  funext maxPool p op
  cases op <;> rfl

/-- C8: starting from any well-formed pool state (counter matching the
free list, within the cap - in particular the initial empty pools), any
sequence of get/put operations keeps `nqtds` and `nqhs` within
`EHCI_MAX_QTD_POOL` resp. `EHCI_MAX_QH_POOL`; and a release arriving with
the counter at the cap destroys the oldest pooled descriptor (the list
head) and appends the released one, leaving the counter at the cap instead
of growing the pool. -/
theorem C8_pool_caps (maxQtdPool maxQhPool : Nat)
    (h1 : 1 ≤ maxQtdPool) (h2 : 1 ≤ maxQhPool) :
    (∀ (ops : List PoolOp) (p : DescPool), poolWF maxQtdPool p →
      (ops.foldl (qtdPoolStep maxQtdPool) p).n ≤ maxQtdPool) ∧
    (∀ (ops : List PoolOp) (p : DescPool), poolWF maxQhPool p →
      (ops.foldl (qhPoolStep maxQhPool) p).n ≤ maxQhPool) ∧
    (∀ (p : DescPool) (q : Nat), poolWF maxQtdPool p → p.n = maxQtdPool →
      ehci_qtdPutOne maxQtdPool p q = ⟨p.pool.tail ++ [q], maxQtdPool⟩) ∧
    (∀ (p : DescPool) (q : Nat), poolWF maxQhPool p → p.n = maxQhPool →
      ehci_qhPut maxQhPool p q = ⟨p.pool.tail ++ [q], maxQhPool⟩) := by
  have hfull : ∀ (maxPool : Nat), 1 ≤ maxPool → ∀ (p : DescPool) (q : Nat),
      poolWF maxPool p → p.n = maxPool →
      ehci_qtdPutOne maxPool p q = ⟨p.pool.tail ++ [q], maxPool⟩ := by
    intro maxPool hm p q hwf hn
    obtain ⟨pool, n⟩ := p
    obtain ⟨hl, hc⟩ := hwf
    dsimp only at hn hl hc
    subst hn
    simp only [ehci_qtdPutOne, if_pos (le_refl _)]
    congr 1
    omega
  refine ⟨fun ops p hwf => (qtdPoolFold_WF maxQtdPool h1 ops p hwf).2, ?_,
    hfull maxQtdPool h1, ?_⟩
  · intro ops p hwf
    rw [qhPoolStep_eq_qtdPoolStep]
    exact (qtdPoolFold_WF maxQhPool h2 ops p hwf).2
  · intro p q hwf hn
    rw [qhPut_eq_qtdPutOne]
    exact hfull maxQhPool h2 p q hwf hn

/-- C8, witness: cap 1, operations put-put-get from the empty pool: the
counter never exceeds 1, and the second put (arriving at the cap) destroys
the pooled descriptor 5 and keeps the counter at 1. -/
theorem C8_witness :
    (1 : Nat) ≤ 1 ∧
    ([PoolOp.put 5, PoolOp.put 6, PoolOp.get].foldl (qtdPoolStep 1) ⟨[], 0⟩).n ≤ 1 ∧
    ehci_qtdPutOne 1 ⟨[5], 1⟩ 6 = ⟨[6], 1⟩ ∧
    ehci_qhPut 1 ⟨[5], 1⟩ 6 = ⟨[6], 1⟩ :=
  ⟨le_refl 1,
    (C8_pool_caps 1 1 (by decide) (by decide)).1 [PoolOp.put 5, PoolOp.put 6, PoolOp.get]
      ⟨[], 0⟩ ⟨by decide, by decide⟩,
    ((C8_pool_caps 1 1 (by decide) (by decide)).2.2.1 ⟨[5], 1⟩ 6 ⟨by decide, by decide⟩
      (by decide)).trans (by decide),
    ((C8_pool_caps 1 1 (by decide) (by decide)).2.2.2 ⟨[5], 1⟩ 6 ⟨by decide, by decide⟩
      (by decide)).trans (by decide)⟩

/-! ## C2 - zero-size non-control submissions -/

/-- C2, counterexample.  A bulk transfer of size zero on a pipe that
already has a QH (id 7): `ehci_qtdAdd`'s do/while body runs once even with
`size == 0`, so one zero-length qTD is built, the "no qTDs" rejection at
ehci.c:792-793 is not reached, and the call succeeds with code 0,
registering the transfer in `hcd->transfers` and handing the one-qTD ring
to `ehci_enqueue` - the submission is not rejected. -/
theorem C2_counterexample :
    (ehci_transferEnqueue 8 ⟨⟨[], 0⟩, ⟨[], 0⟩, 4, 10, [], [], [], []⟩
        ⟨TrType.bulk, TrDir.dirOut, 0, none, 0, none⟩ ⟨some 7, 64⟩ 5).1 = 0 ∧
    (ehci_transferEnqueue 8 ⟨⟨[], 0⟩, ⟨[], 0⟩, 4, 10, [], [], [], []⟩
        ⟨TrType.bulk, TrDir.dirOut, 0, none, 0, none⟩ ⟨some 7, 64⟩ 5).2.1.transfers = [5] ∧
    (ehci_transferEnqueue 8 ⟨⟨[], 0⟩, ⟨[], 0⟩, 4, 10, [], [], [], []⟩
        ⟨TrType.bulk, TrDir.dirOut, 0, none, 0, none⟩ ⟨some 7, 64⟩ 5).2.1.pending
      = [(7, [10])] := by
  decide

lemma qtdBytes_size_zero (a m : Nat) : ehci_qtdBytes a 0 m = 0 := by
  simp [ehci_qtdBytes, ehci_qtdBufStep, List.foldl]

lemma qtdAdd_size_zero (mps : Nat) (buf : Option Nat) (dt : Nat) (list : List Nat)
    (s : HcdSt) (q : Nat) (s' : HcdSt) (h : ehci_allocQtd s = some (q, s')) :
    ehci_qtdAdd mps buf 0 dt list s = (true, list ++ [q], s') := by
  show ehci_qtdAddGo mps buf 0 dt 1 0 list s = _
  unfold ehci_qtdAddGo
  rw [h, Option.elim]
  cases buf with
  | none => simp
  | some a => simp [qtdBytes_size_zero]

/-- C2, amended: a non-control transfer of size zero is *accepted*:
provided the single qTD allocation succeeds, `ehci_transferEnqueue` builds
exactly one zero-length qTD, stores the one-element ring in `t->hcdpriv`,
registers the transfer in the in-flight list, appends the ring to the QH's
pending ring, and returns 0. -/
theorem C2_zero_size_noncontrol (maxQtdPool : Nat) (s : HcdSt) (t : TransferM)
    (pipe : PipeM) (tid q qh : Nat) (s1 s2 : HcdSt) (p1 : PipeM)
    (ht : t.typ ≠ TrType.control) (hsz : t.size = 0)
    (hres : enqResolveQh s t pipe = some (qh, s1, p1))
    (halloc : ehci_allocQtd s1 = some (q, s2)) :
    ehci_transferEnqueue maxQtdPool s t pipe tid =
      (0, { s2 with transfers := s2.transfers ++ [tid],
                    pending := s2.pending ++ [(qh, [q])] },
        { t with hcdpriv := some [q] }, p1) := by
  have hsetup : enqSetupStage p1.maxPacketLen t s1 = (true, [], s1) := by
    simp [enqSetupStage, ht]
  have hcond : (t.typ = TrType.control ∧ 0 < t.size) ∨ t.typ = TrType.bulk ∨
      t.typ = TrType.interrupt := by
    cases htyp : t.typ with
    | control => exact absurd htyp ht
    | bulk => exact Or.inr (Or.inl rfl)
    | interrupt => exact Or.inr (Or.inr rfl)
  have hdata : enqDataStage p1.maxPacketLen t [] s1 = (true, [q], s2) := by
    rw [enqDataStage, if_pos hcond, hsz]
    exact qtdAdd_size_zero p1.maxPacketLen t.buf 1 [] s1 q s2 halloc
  have hstatus : enqStatusStage p1.maxPacketLen t [q] s2 = (true, [q], s2) := by
    simp [enqStatusStage, ht]
  simp only [ehci_transferEnqueue, hres, hsetup, hdata, hstatus]
  rw [if_neg (List.cons_ne_nil q [])]

/-- C2, witness: an interrupt IN transfer of size zero on pipe QH 7 is
accepted with one qTD. -/
theorem C2_witness :
    TrType.interrupt ≠ TrType.control ∧
    enqResolveQh ⟨⟨[], 0⟩, ⟨[], 0⟩, 4, 10, [], [], [], []⟩
        ⟨TrType.interrupt, TrDir.dirIn, 0, some 100, 0, none⟩ ⟨some 7, 64⟩
      = some (7, ⟨⟨[], 0⟩, ⟨[], 0⟩, 4, 10, [], [], [], []⟩, ⟨some 7, 64⟩) ∧
    ehci_transferEnqueue 8 ⟨⟨[], 0⟩, ⟨[], 0⟩, 4, 10, [], [], [], []⟩
        ⟨TrType.interrupt, TrDir.dirIn, 0, some 100, 0, none⟩ ⟨some 7, 64⟩ 2
      = (0, ⟨⟨[], 0⟩, ⟨[], 0⟩, 3, 11, [], [], [2], [(7, [10])]⟩,
          ⟨TrType.interrupt, TrDir.dirIn, 0, some 100, 0, some [10]⟩, ⟨some 7, 64⟩) :=
  ⟨by decide, by decide,
    (C2_zero_size_noncontrol 8 ⟨⟨[], 0⟩, ⟨[], 0⟩, 4, 10, [], [], [], []⟩
        ⟨TrType.interrupt, TrDir.dirIn, 0, some 100, 0, none⟩ ⟨some 7, 64⟩ 2 10 7
        ⟨⟨[], 0⟩, ⟨[], 0⟩, 4, 10, [], [], [], []⟩ ⟨⟨[], 0⟩, ⟨[], 0⟩, 3, 11, [], [], [], []⟩
        ⟨some 7, 64⟩ (by decide) rfl (by decide) (by decide)).trans (by decide)⟩

/-! ## C9 - allocation failure during submission -/

/-- C9: whichever of the three qTD-building stages of
`ehci_transferEnqueue` fails (setup, data, or status), the call releases
every qTD built so far for the transfer back to the pool with
`ehci_qtdsPut`, clears `t->hcdpriv`, leaves the pipe untouched, and
returns `-ENOMEM`. -/
theorem C9_enqueue_oom (maxQtdPool : Nat) (s : HcdSt) (t : TransferM) (pipe : PipeM)
    (tid qh : Nat) (s1 : HcdSt) (p1 : PipeM)
    (hres : enqResolveQh s t pipe = some (qh, s1, p1)) :
    (∀ b s2, enqSetupStage p1.maxPacketLen t s1 = (false, b, s2) →
      ehci_transferEnqueue maxQtdPool s t pipe tid =
        (-(ENOMEM : Int), { s2 with qtds := ehci_qtdsPut maxQtdPool s2.qtds b },
          { t with hcdpriv := none }, p1)) ∧
    (∀ b1 s2 b s3, enqSetupStage p1.maxPacketLen t s1 = (true, b1, s2) →
      enqDataStage p1.maxPacketLen t b1 s2 = (false, b, s3) →
      ehci_transferEnqueue maxQtdPool s t pipe tid =
        (-(ENOMEM : Int), { s3 with qtds := ehci_qtdsPut maxQtdPool s3.qtds b },
          { t with hcdpriv := none }, p1)) ∧
    (∀ b1 s2 b2 s3 b s4, enqSetupStage p1.maxPacketLen t s1 = (true, b1, s2) →
      enqDataStage p1.maxPacketLen t b1 s2 = (true, b2, s3) →
      enqStatusStage p1.maxPacketLen t b2 s3 = (false, b, s4) →
      ehci_transferEnqueue maxQtdPool s t pipe tid =
        (-(ENOMEM : Int), { s4 with qtds := ehci_qtdsPut maxQtdPool s4.qtds b },
          { t with hcdpriv := none }, p1)) := by
  refine ⟨?_, ?_, ?_⟩
  · intro b s2 h1
    simp only [ehci_transferEnqueue, hres, h1]
  · intro b1 s2 b s3 h1 h2
    simp only [ehci_transferEnqueue, hres, h1, h2]
  · intro b1 s2 b2 s3 b s4 h1 h2 h3
    simp only [ehci_transferEnqueue, hres, h1, h2, h3]

/-- C9, witness: a control transfer with no pool and no malloc budget -
the setup stage fails immediately, the (empty) partial ring is released
and the call reports `-ENOMEM` with `t->hcdpriv` cleared. -/
theorem C9_witness :
    enqResolveQh ⟨⟨[], 0⟩, ⟨[], 0⟩, 0, 10, [], [], [], []⟩
        ⟨TrType.control, TrDir.dirIn, 18, some 100, 200, none⟩ ⟨some 7, 64⟩
      = some (7, ⟨⟨[], 0⟩, ⟨[], 0⟩, 0, 10, [], [], [], []⟩, ⟨some 7, 64⟩) ∧
    enqSetupStage 64 ⟨TrType.control, TrDir.dirIn, 18, some 100, 200, none⟩
        ⟨⟨[], 0⟩, ⟨[], 0⟩, 0, 10, [], [], [], []⟩
      = (false, [], ⟨⟨[], 0⟩, ⟨[], 0⟩, 0, 10, [], [], [], []⟩) ∧
    ehci_transferEnqueue 8 ⟨⟨[], 0⟩, ⟨[], 0⟩, 0, 10, [], [], [], []⟩
        ⟨TrType.control, TrDir.dirIn, 18, some 100, 200, none⟩ ⟨some 7, 64⟩ 3
      = (-(ENOMEM : Int), ⟨⟨[], 0⟩, ⟨[], 0⟩, 0, 10, [], [], [], []⟩,
          ⟨TrType.control, TrDir.dirIn, 18, some 100, 200, none⟩, ⟨some 7, 64⟩) :=
  ⟨by decide, by decide,
    ((C9_enqueue_oom 8 ⟨⟨[], 0⟩, ⟨[], 0⟩, 0, 10, [], [], [], []⟩
        ⟨TrType.control, TrDir.dirIn, 18, some 100, 200, none⟩ ⟨some 7, 64⟩ 3 7
        ⟨⟨[], 0⟩, ⟨[], 0⟩, 0, 10, [], [], [], []⟩ ⟨some 7, 64⟩ (by decide)).1 []
      ⟨⟨[], 0⟩, ⟨[], 0⟩, 0, 10, [], [], [], []⟩ (by decide)).trans (by decide)⟩

/-! ## C10 - the QH survives a failed first submission -/

lemma allocQtd_frame (s : HcdSt) (q : Nat) (s' : HcdSt)
    (h : ehci_allocQtd s = some (q, s')) :
    s'.asyncLinked = s.asyncLinked ∧ s'.periodicLinked = s.periodicLinked ∧
    s'.qhs = s.qhs := by
  unfold ehci_allocQtd at h
  rcases hg : ehci_qtdGet s.qtds with ⟨opt, p⟩
  rw [hg] at h
  cases opt with
  | some x =>
    rw [Option.some.injEq, Prod.mk.injEq] at h
    obtain ⟨-, h⟩ := h
    subst h
    exact ⟨rfl, rfl, rfl⟩
  | none =>
    by_cases hb : 0 < s.budget
    · rw [if_pos hb, Option.some.injEq, Prod.mk.injEq] at h
      obtain ⟨-, h⟩ := h
      subst h
      exact ⟨rfl, rfl, rfl⟩
    · rw [if_neg hb] at h
      exact absurd h (by simp)

lemma qtdAddGo_frame (mps : Nat) (buf : Option Nat) (size : Nat) :
    ∀ fuel dt remaining list (s : HcdSt),
      (ehci_qtdAddGo mps buf size dt fuel remaining list s).2.2.asyncLinked
        = s.asyncLinked ∧
      (ehci_qtdAddGo mps buf size dt fuel remaining list s).2.2.periodicLinked
        = s.periodicLinked ∧
      (ehci_qtdAddGo mps buf size dt fuel remaining list s).2.2.qhs = s.qhs := by
  intro fuel
  induction fuel with
  | zero => intro dt remaining list s; exact ⟨rfl, rfl, rfl⟩
  | succ n ih =>
    intro dt remaining list s
    unfold ehci_qtdAddGo
    rcases ha : ehci_allocQtd s with - | ⟨q, s'⟩
    · exact ⟨rfl, rfl, rfl⟩
    · obtain ⟨f1, f2, f3⟩ := allocQtd_frame s q s' ha
      dsimp only [Option.elim]
      split
      · obtain ⟨g1, g2, g3⟩ := ih _ _ _ s'
        exact ⟨g1.trans f1, g2.trans f2, g3.trans f3⟩
      · exact ⟨f1, f2, f3⟩

lemma qtdAdd_frame (mps : Nat) (buf : Option Nat) (size dt : Nat)
    (list : List Nat) (s : HcdSt) :
    (ehci_qtdAdd mps buf size dt list s).2.2.asyncLinked = s.asyncLinked ∧
    (ehci_qtdAdd mps buf size dt list s).2.2.periodicLinked = s.periodicLinked ∧
    (ehci_qtdAdd mps buf size dt list s).2.2.qhs = s.qhs :=
  qtdAddGo_frame mps buf size (size + 1) dt size list s

lemma stage_frame (mps : Nat) (t : TransferM) (qtds : List Nat) (s : HcdSt) :
    ((enqSetupStage mps t s).2.2.asyncLinked = s.asyncLinked ∧
      (enqSetupStage mps t s).2.2.periodicLinked = s.periodicLinked ∧
      (enqSetupStage mps t s).2.2.qhs = s.qhs) ∧
    ((enqDataStage mps t qtds s).2.2.asyncLinked = s.asyncLinked ∧
      (enqDataStage mps t qtds s).2.2.periodicLinked = s.periodicLinked ∧
      (enqDataStage mps t qtds s).2.2.qhs = s.qhs) ∧
    ((enqStatusStage mps t qtds s).2.2.asyncLinked = s.asyncLinked ∧
      (enqStatusStage mps t qtds s).2.2.periodicLinked = s.periodicLinked ∧
      (enqStatusStage mps t qtds s).2.2.qhs = s.qhs) := by
  refine ⟨?_, ?_, ?_⟩
  · unfold enqSetupStage
    split
    · exact qtdAdd_frame _ _ _ _ _ _
    · exact ⟨rfl, rfl, rfl⟩
  · unfold enqDataStage
    split
    · exact qtdAdd_frame _ _ _ _ _ _
    · exact ⟨rfl, rfl, rfl⟩
  · unfold enqStatusStage
    split
    · exact qtdAdd_frame _ _ _ _ _ _
    · exact ⟨rfl, rfl, rfl⟩

/-- C10: if the pipe had no QH, the QH allocation and linking succeeded
(`enqResolveQh` returned a QH), and the call then failed with `-ENOMEM`
while building qTDs, the new QH is *not* unlinked: it is still recorded in
the schedule it was linked into (async for bulk/control, periodic for
interrupt), the QH pool is untouched by the failure path, and
`pipe->hcdpriv` still points to the QH after the call. -/
theorem C10_qh_survives_failed_enqueue (maxQtdPool : Nat) (s : HcdSt)
    (t : TransferM) (pipe : PipeM) (tid qh : Nat) (s1 : HcdSt) (p1 : PipeM)
    (hnone : pipe.hcdpriv = none)
    (hres : enqResolveQh s t pipe = some (qh, s1, p1))
    (hfail : (ehci_transferEnqueue maxQtdPool s t pipe tid).1 = -(ENOMEM : Int)) :
    (ehci_transferEnqueue maxQtdPool s t pipe tid).2.2.2.hcdpriv = some qh ∧
    (ehci_transferEnqueue maxQtdPool s t pipe tid).2.1.asyncLinked = s1.asyncLinked ∧
    (ehci_transferEnqueue maxQtdPool s t pipe tid).2.1.periodicLinked
      = s1.periodicLinked ∧
    (ehci_transferEnqueue maxQtdPool s t pipe tid).2.1.qhs = s1.qhs ∧
    (t.typ = TrType.bulk ∨ t.typ = TrType.control → qh ∈ s1.asyncLinked) ∧
    (t.typ = TrType.interrupt → qh ∈ s1.periodicLinked) := by
  have hpipe : p1.hcdpriv = some qh ∧
      (t.typ = TrType.bulk ∨ t.typ = TrType.control → qh ∈ s1.asyncLinked) ∧
      (t.typ = TrType.interrupt → qh ∈ s1.periodicLinked) := by
    unfold enqResolveQh at hres
    rw [hnone] at hres
    rcases ha : ehci_allocQh s with - | ⟨a, s'⟩
    · rw [ha] at hres; exact absurd hres (by simp)
    · rw [ha] at hres
      dsimp only at hres
      by_cases htyp : t.typ = TrType.bulk ∨ t.typ = TrType.control
      · rw [if_pos htyp] at hres
        rw [Option.some.injEq, Prod.mk.injEq] at hres
        obtain ⟨hq, hres⟩ := hres
        rw [Prod.mk.injEq] at hres
        obtain ⟨hs1, hp1⟩ := hres
        subst hq
        subst hs1
        subst hp1
        refine ⟨rfl, fun _ => ?_, fun hint => ?_⟩
        · simp
        · rcases htyp with h | h <;> rw [hint] at h <;> exact absurd h (by decide)
      · rw [if_neg htyp] at hres
        rw [Option.some.injEq, Prod.mk.injEq] at hres
        obtain ⟨hq, hres⟩ := hres
        rw [Prod.mk.injEq] at hres
        obtain ⟨hs1, hp1⟩ := hres
        subst hq
        subst hs1
        subst hp1
        refine ⟨rfl, fun hb => absurd hb htyp, fun _ => ?_⟩
        simp
  rcases h1 : enqSetupStage p1.maxPacketLen t s1 with ⟨ok1, b1, s2⟩
  have f1 := (stage_frame p1.maxPacketLen t [] s1).1
  rw [h1] at f1
  cases ok1 with
  | false =>
    simp only [ehci_transferEnqueue, hres, h1]
    exact ⟨hpipe.1, f1.1, f1.2.1, f1.2.2, hpipe.2.1, hpipe.2.2⟩
  | true =>
    rcases h2 : enqDataStage p1.maxPacketLen t b1 s2 with ⟨ok2, b2, s3⟩
    have f2 := (stage_frame p1.maxPacketLen t b1 s2).2.1
    rw [h2] at f2
    cases ok2 with
    | false =>
      simp only [ehci_transferEnqueue, hres, h1, h2]
      exact ⟨hpipe.1, (f2.1.trans f1.1 : _), f2.2.1.trans f1.2.1, f2.2.2.trans f1.2.2,
        hpipe.2.1, hpipe.2.2⟩
    | true =>
      rcases h3 : enqStatusStage p1.maxPacketLen t b2 s3 with ⟨ok3, b3, s4⟩
      have f3 := (stage_frame p1.maxPacketLen t b2 s3).2.2
      rw [h3] at f3
      cases ok3 with
      | false =>
        simp only [ehci_transferEnqueue, hres, h1, h2, h3]
        exact ⟨hpipe.1, f3.1.trans ((f2.1.trans f1.1 : _) : _),
          f3.2.1.trans (f2.2.1.trans f1.2.1), f3.2.2.trans (f2.2.2.trans f1.2.2),
          hpipe.2.1, hpipe.2.2⟩
      | true =>
        by_cases hb3 : b3 = []
        · simp only [ehci_transferEnqueue, hres, h1, h2, h3, if_pos hb3] at hfail
          exact absurd hfail (by decide)
        · simp only [ehci_transferEnqueue, hres, h1, h2, h3, if_neg hb3] at hfail
          exact absurd hfail (by decide)

/-- C10, witness: a bulk transfer on a fresh pipe with malloc budget 1 -
the QH is allocated and linked into the async schedule, the data-stage
qTD allocation then fails; the call reports `-ENOMEM` yet the QH stays
linked and `pipe->hcdpriv` still points to it. -/
theorem C10_witness :
    (⟨none, 64⟩ : PipeM).hcdpriv = none ∧
    enqResolveQh ⟨⟨[], 0⟩, ⟨[], 0⟩, 1, 20, [], [], [], []⟩
        ⟨TrType.bulk, TrDir.dirOut, 100, some 0, 0, none⟩ ⟨none, 64⟩
      = some (20, ⟨⟨[], 0⟩, ⟨[], 0⟩, 0, 21, [20], [], [], []⟩, ⟨some 20, 64⟩) ∧
    (ehci_transferEnqueue 8 ⟨⟨[], 0⟩, ⟨[], 0⟩, 1, 20, [], [], [], []⟩
        ⟨TrType.bulk, TrDir.dirOut, 100, some 0, 0, none⟩ ⟨none, 64⟩ 4).1
      = -(ENOMEM : Int) ∧
    (ehci_transferEnqueue 8 ⟨⟨[], 0⟩, ⟨[], 0⟩, 1, 20, [], [], [], []⟩
        ⟨TrType.bulk, TrDir.dirOut, 100, some 0, 0, none⟩ ⟨none, 64⟩ 4).2.2.2.hcdpriv
      = some 20 ∧
    (ehci_transferEnqueue 8 ⟨⟨[], 0⟩, ⟨[], 0⟩, 1, 20, [], [], [], []⟩
        ⟨TrType.bulk, TrDir.dirOut, 100, some 0, 0, none⟩ ⟨none, 64⟩ 4).2.1.asyncLinked
      = [20] :=
  ⟨rfl, by decide, by decide,
    (C10_qh_survives_failed_enqueue 8 ⟨⟨[], 0⟩, ⟨[], 0⟩, 1, 20, [], [], [], []⟩
      ⟨TrType.bulk, TrDir.dirOut, 100, some 0, 0, none⟩ ⟨none, 64⟩ 4 20
      ⟨⟨[], 0⟩, ⟨[], 0⟩, 0, 21, [20], [], [], []⟩ ⟨some 20, 64⟩ rfl (by decide)
      (by decide)).1,
    ((C10_qh_survives_failed_enqueue 8 ⟨⟨[], 0⟩, ⟨[], 0⟩, 1, 20, [], [], [], []⟩
      ⟨TrType.bulk, TrDir.dirOut, 100, some 0, 0, none⟩ ⟨none, 64⟩ 4 20
      ⟨⟨[], 0⟩, ⟨[], 0⟩, 0, 21, [20], [], [], []⟩ ⟨some 20, 64⟩ rfl (by decide)
      (by decide)).2.1).trans rfl⟩

/-! ## C5 - qTD buffer byte accounting -/

lemma qtdBufStep_mid (m s b i : Nat) (hi : ¬ i = EHCI_QH_NBUFS - 1) :
    ehci_qtdBufStep m s b i = if b = s then s else b + min (s - b) EHCI_PAGE_SIZE := by
  by_cases hbs : b = s
  · simp [ehci_qtdBufStep, hbs]
  · simp [ehci_qtdBufStep, hbs, hi]

lemma qtdBytes_eq_spec (addr size m : Nat) (hm : 0 < m) (hm' : m ≤ EHCI_PAGE_SIZE) :
    ehci_qtdBytes addr size m = spec_qtdBytes addr size m := by
  have hPS : EHCI_PAGE_SIZE = 4096 := rfl
  have hmod : addr % EHCI_PAGE_SIZE < EHCI_PAGE_SIZE := Nat.mod_lt _ (by rw [hPS]; omega)
  set p0 := EHCI_PAGE_SIZE - addr % EHCI_PAGE_SIZE with hp0
  have e0 : ehci_qtdBytes addr size m =
      ehci_qtdBufStep m size (ehci_qtdBufStep m size (ehci_qtdBufStep m size
        (ehci_qtdBufStep m size (min p0 size) 1) 2) 3) 4 := rfl
  have h1 : ehci_qtdBufStep m size (min p0 size) 1 = min size (p0 + EHCI_PAGE_SIZE) := by
    rw [qtdBufStep_mid m size _ 1 (by decide)]
    split <;> omega
  have h2 : ehci_qtdBufStep m size (min size (p0 + EHCI_PAGE_SIZE)) 2
      = min size (p0 + 2 * EHCI_PAGE_SIZE) := by
    rw [qtdBufStep_mid m size _ 2 (by decide)]
    split <;> omega
  have h3 : ehci_qtdBufStep m size (min size (p0 + 2 * EHCI_PAGE_SIZE)) 3
      = min size (p0 + 3 * EHCI_PAGE_SIZE) := by
    rw [qtdBufStep_mid m size _ 3 (by decide)]
    split <;> omega
  have h4 : ehci_qtdBufStep m size (min size (p0 + 3 * EHCI_PAGE_SIZE)) 4
      = spec_qtdBytes addr size m := by
    show _ = (if min size (EHCI_PAGE_SIZE - addr % EHCI_PAGE_SIZE + 4 * EHCI_PAGE_SIZE) < size
      then min size (EHCI_PAGE_SIZE - addr % EHCI_PAGE_SIZE + 4 * EHCI_PAGE_SIZE) / m * m
      else min size (EHCI_PAGE_SIZE - addr % EHCI_PAGE_SIZE + 4 * EHCI_PAGE_SIZE))
    rw [← hp0]
    by_cases hbs : min size (p0 + 3 * EHCI_PAGE_SIZE) = size
    · have hL : ehci_qtdBufStep m size (min size (p0 + 3 * EHCI_PAGE_SIZE)) 4 = size := by
        simp [ehci_qtdBufStep, hbs]
      have hU : min size (p0 + 4 * EHCI_PAGE_SIZE) = size := by omega
      rw [hL, hU, if_neg (lt_irrefl size)]
    · have hb2 : min size (p0 + 3 * EHCI_PAGE_SIZE) < size := by omega
      by_cases hU : min size (p0 + 4 * EHCI_PAGE_SIZE) < size
      · have hcond : min size (p0 + 3 * EHCI_PAGE_SIZE) +
            min (size - min size (p0 + 3 * EHCI_PAGE_SIZE)) EHCI_PAGE_SIZE < size := by omega
        have hL : ehci_qtdBufStep m size (min size (p0 + 3 * EHCI_PAGE_SIZE)) 4
            = min size (p0 + 3 * EHCI_PAGE_SIZE) +
              ((min size (p0 + 3 * EHCI_PAGE_SIZE) +
                min (size - min size (p0 + 3 * EHCI_PAGE_SIZE)) EHCI_PAGE_SIZE) / m * m
                - min size (p0 + 3 * EHCI_PAGE_SIZE)) := by
          simp only [ehci_qtdBufStep, EHCI_QH_NBUFS]
          rw [if_pos hbs, if_pos ⟨trivial, hcond⟩]
        have hUeq : min size (p0 + 3 * EHCI_PAGE_SIZE) +
            min (size - min size (p0 + 3 * EHCI_PAGE_SIZE)) EHCI_PAGE_SIZE
            = min size (p0 + 4 * EHCI_PAGE_SIZE) := by omega
        rw [hL, hUeq, if_pos hU]
        have hda : min size (p0 + 4 * EHCI_PAGE_SIZE) / m * m
            + (min size (p0 + 4 * EHCI_PAGE_SIZE)) % m
            = min size (p0 + 4 * EHCI_PAGE_SIZE) := by
          rw [Nat.mul_comm]
          exact Nat.div_add_mod _ m
        have hmod2 : (min size (p0 + 4 * EHCI_PAGE_SIZE)) % m < m := Nat.mod_lt _ hm
        omega
      · have hcond : ¬ (min size (p0 + 3 * EHCI_PAGE_SIZE) +
            min (size - min size (p0 + 3 * EHCI_PAGE_SIZE)) EHCI_PAGE_SIZE < size) := by omega
        have hL : ehci_qtdBufStep m size (min size (p0 + 3 * EHCI_PAGE_SIZE)) 4
            = min size (p0 + 3 * EHCI_PAGE_SIZE) +
              min (size - min size (p0 + 3 * EHCI_PAGE_SIZE)) EHCI_PAGE_SIZE := by
          simp only [ehci_qtdBufStep, EHCI_QH_NBUFS]
          rw [if_pos hbs]
          rw [if_neg (fun hc => hcond hc.2)]
        rw [hL, if_neg hU]
        omega
  rw [e0, h1, h2, h3, h4]

lemma qtdBytes_le_size (addr size m : Nat) (hm : 0 < m) (hm' : m ≤ EHCI_PAGE_SIZE) :
    ehci_qtdBytes addr size m ≤ size := by
  rw [qtdBytes_eq_spec addr size m hm hm']
  have hd := Nat.div_mul_le_self
    (min size (EHCI_PAGE_SIZE - addr % EHCI_PAGE_SIZE + 4 * EHCI_PAGE_SIZE)) m
  simp only [spec_qtdBytes]
  split <;> omega

lemma qtdBytes_lt_two_pow_15 (addr size m : Nat) (hm : 0 < m) (hm' : m ≤ EHCI_PAGE_SIZE) :
    ehci_qtdBytes addr size m < 32768 := by
  rw [qtdBytes_eq_spec addr size m hm hm']
  have hd := Nat.div_mul_le_self
    (min size (EHCI_PAGE_SIZE - addr % EHCI_PAGE_SIZE + 4 * EHCI_PAGE_SIZE)) m
  have hPS : EHCI_PAGE_SIZE = 4096 := rfl
  simp only [spec_qtdBytes]
  split <;> omega

lemma qtdLen_or (a b : Nat) (hb : b < 32768)
    (ha : ∀ j, j < 15 → Nat.testBit a (16 + j) = false) :
    QTD_LEN (a ||| (b <<< 16)) = b := by
  unfold QTD_LEN
  rw [show (0x7fff : Nat) = 2 ^ 15 - 1 from by norm_num]
  apply Nat.eq_of_testBit_eq
  intro k
  rw [Nat.testBit_and, Nat.testBit_two_pow_sub_one, Nat.testBit_shiftRight, Nat.testBit_or,
    Nat.testBit_shiftLeft]
  by_cases hk : k < 15
  · have ha' := ha k hk
    simp [ha', hk, Nat.add_sub_cancel_left]
  · have hbk : Nat.testBit b k = false := by
      apply Nat.testBit_lt_two_pow
      calc b < 32768 := hb
        _ = 2 ^ 15 := by norm_num
        _ ≤ 2 ^ k := Nat.pow_le_pow_right (by norm_num) (by omega)
    simp [hk, hbk]

/-- C5: for a qTD built on a non-null buffer, the byte count equals the
spec formula - `min(remaining, bytes-to-end-of-first-page)` for the first
page plus `min(remaining-so-far, 4096)` per subsequent page, truncated
down to a whole multiple of maxPacketSize when the fifth buffer page does
not exhaust the remaining count; the count never exceeds the remaining
count, is written into bits 16-30 of the token (`QTD_LEN` reads it back
unchanged), and is subtracted from the remaining-byte counter passed by
reference. -/
theorem C5_qtdAlloc_bytes (datax pid addr size maxpacksz : Nat)
    (hm : 0 < maxpacksz) (hm' : maxpacksz ≤ EHCI_PAGE_SIZE)
    (hd : datax < 2) (hp : pid < 4) :
    ehci_qtdBytes addr size maxpacksz = spec_qtdBytes addr size maxpacksz ∧
    ehci_qtdBytes addr size maxpacksz ≤ size ∧
    QTD_LEN (ehci_qtdAllocHw datax pid addr size maxpacksz).1
      = ehci_qtdBytes addr size maxpacksz ∧
    (ehci_qtdAllocHw datax pid addr size maxpacksz).2
      = size - ehci_qtdBytes addr size maxpacksz := by
  have heq := qtdBytes_eq_spec addr size maxpacksz hm hm'
  have hle := qtdBytes_le_size addr size maxpacksz hm hm'
  have hlt := qtdBytes_lt_two_pow_15 addr size maxpacksz hm hm'
  have ha : ∀ j, j < 15 → Nat.testBit (ehci_qtdAllocToken datax pid) (16 + j) = false := by
    interval_cases datax <;> interval_cases pid <;> decide
  exact ⟨heq, hle, qtdLen_or _ _ hlt ha, rfl⟩

/-- C5, witness: a 30000-byte IN transfer starting page-aligned with
maxPacketSize 512: the qTD consumes 5 pages = 20480 bytes (already a
multiple of 512), the token carries 20480 in bits 16-30, and the
remaining count drops to 9520. -/
theorem C5_witness :
    (0 : Nat) < 512 ∧ (512 : Nat) ≤ EHCI_PAGE_SIZE ∧ (1 : Nat) < 2 ∧ (1 : Nat) < 4 ∧
    ehci_qtdBytes 0 30000 512 = spec_qtdBytes 0 30000 512 ∧
    ehci_qtdBytes 0 30000 512 = 20480 ∧
    QTD_LEN (ehci_qtdAllocHw 1 1 0 30000 512).1 = 20480 ∧
    (ehci_qtdAllocHw 1 1 0 30000 512).2 = 9520 :=
  ⟨by decide, by decide, by decide, by decide,
    (C5_qtdAlloc_bytes 1 1 0 30000 512 (by decide) (by decide) (by decide) (by decide)).1,
    by decide,
    ((C5_qtdAlloc_bytes 1 1 0 30000 512 (by decide) (by decide) (by decide)
      (by decide)).2.2.1).trans (by decide),
    ((C5_qtdAlloc_bytes 1 1 0 30000 512 (by decide) (by decide) (by decide)
      (by decide)).2.2.2).trans (by decide)⟩

/-! ## C3 - high-speed interrupt S-mask -/

/-- C3, counterexample.  A high-speed interrupt pipe with bInterval 4:
`ehci_qhConf` yields period `((1 << 3) >> 3) = 1` frame, so
`ehci_bandAlloc` skips the microframe choice ("for periods equal to 1,
send it every microframe"), `uframe` stays 0xff and `ehci_qhLinkPeriodic`
writes `QH_SMASK` - *all eight* microframe bits - into the S-mask, not a
single chosen microframe bit. -/
theorem C3_counterexample :
    (ehci_qhConf (hsIntrPipe 4) ehci_qhAllocRec).period = 1 ∧
    ((ehci_qhLinkPeriodic c3st 0).qhs 0).info1 &&& 0xff = 0xff ∧
    (∀ k, k < 8 → ((ehci_qhLinkPeriodic c3st 0).qhs 0).info1 &&& 0xff ≠ 1 <<< k) := by
  decide

lemma chainCount_le (st : PerSt) : ∀ fuel o, chainCount st o fuel ≤ fuel := by
  intro fuel
  induction fuel with
  | zero => intro o; cases o <;> simp [chainCount]
  | succ n ih =>
    intro o
    cases o with
    | none => simp [chainCount]
    | some i =>
      have := ih (st.qhs i).next
      simp only [chainCount]
      omega

lemma bandAlloc_period_one (st : PerSt) (qh : QHrec) (hper : qh.period = 1) :
    ehci_bandAlloc st qh = { qh with phase := 0, uframe := 0xff } := by
  unfold ehci_bandAlloc
  dsimp only
  rw [hper]
  have hr : List.range (min 1 EHCI_PERIODIC_SIZE) = [0] := by decide
  rw [hr]
  simp only [List.foldl_cons, List.foldl_nil]
  rw [if_pos (lt_of_le_of_lt (chainCount_le st EHCI_CHAIN_FUEL (st.periodicNodes 0))
    (by decide))]
  dsimp only
  rw [if_neg (fun hc => absurd hc.2 (by decide))]

lemma linkWalk_ne (st : PerSt) (P : Nat) (qhId : Nat)
    (hfresh : ∀ j, (st.qhs j).next ≠ some qhId) :
    ∀ fuel start, start ≠ some qhId → linkWalk st P start fuel ≠ some qhId := by
  intro fuel
  induction fuel with
  | zero =>
    intro start h
    cases start with
    | none => simp [linkWalk]
    | some t => simpa [linkWalk] using h
  | succ n ih =>
    intro start h
    cases start with
    | none => simp [linkWalk]
    | some t =>
      simp only [linkWalk]
      cases hnx : (st.qhs t).next with
      | none =>
        show some t ≠ some qhId
        exact h
      | some nx =>
        show (if P ≤ (st.qhs nx).period then linkWalk st P (some nx) n else some t) ≠ some qhId
        split
        · apply ih
          intro hc
          rw [hc] at hnx
          exact hfresh t hnx
        · exact h

/-- The info1 word `ehci_qhLinkPeriodic` stores for a period-1 QH: the
full `QH_SMASK` or-ed with `QH_CMASK`, in whatever way the QH lands in the
schedule, provided the QH being linked is not already part of a chain. -/
lemma linkPeriodic_info1_period_one (st : PerSt) (qhId : Nat)
    (hper : (st.qhs qhId).period = 1)
    (hfresh : ∀ j, (st.qhs j).next ≠ some qhId)
    (hhead : st.periodicNodes 0 ≠ some qhId) :
    ((ehci_qhLinkPeriodic st qhId).qhs qhId).info1 = QH_SMASK ||| QH_CMASK := by
  unfold ehci_qhLinkPeriodic
  rw [bandAlloc_period_one st _ hper]
  dsimp only
  rw [if_neg (by decide : ¬ (0xff : Nat) ≠ 0xff)]
  rcases hwalk : linkWalk st (st.qhs qhId).period (st.periodicNodes 0) EHCI_CHAIN_FUEL
    with - | t'
  · split
    · split <;> simp [updQ]
    · next hc => simp at hc
  · have ht' : t' ≠ qhId := fun hc =>
      absurd (hc ▸ hwalk)
        (linkWalk_ne st (st.qhs qhId).period qhId hfresh EHCI_CHAIN_FUEL
          (st.periodicNodes 0) hhead)
    by_cases hplt : (st.qhs t').period < (st.qhs qhId).period
    · split
      · split <;> simp [updQ]
      · next hc => exact (hc (decide_eq_true hplt)).elim
    · split
      · next hc => exact absurd (of_decide_eq_true hc) hplt
      · simp only [Option.getD_some]
        simp only [updQ, ht', Ne.symm ht']
        split
        · next hfalse => exact hfalse.elim
        · rw [if_pos trivial]
          split <;> rfl

/-- C3, amended: for a high-speed interrupt pipe with bInterval 4 *or* 1,
QH configuration yields a period of 1 frame and band allocation plus
periodic linking store an S-mask with *all eight* microframe bits set
(`QH_SMASK`); the single least-loaded microframe is selected only for
periods above one frame (bInterval >= 5). -/
theorem C3_hs_smask (st : PerSt) (qhId : Nat) (pipe : PipeConf) (base : QHrec)
    (htyp : pipe.typ = TrType.interrupt) (hspd : pipe.speed = usb_high_speed)
    (hint : pipe.interval = 1 ∨ pipe.interval = 4)
    (hrec : st.qhs qhId = ehci_qhConf pipe base)
    (hfresh : ∀ j, (st.qhs j).next ≠ some qhId)
    (hhead : st.periodicNodes 0 ≠ some qhId) :
    (st.qhs qhId).period = 1 ∧
    ((ehci_qhLinkPeriodic st qhId).qhs qhId).info1 &&& 0xff = 0xff := by
  have hper : (st.qhs qhId).period = 1 := by
    rw [hrec]
    rcases hint with h | h <;>
      simp [ehci_qhConf, htyp, hspd, h]
  refine ⟨hper, ?_⟩
  rw [linkPeriodic_info1_period_one st qhId hper hfresh hhead]
  decide

/-- C3, witness: the empty periodic schedule with every record configured
for a high-speed bInterval-4 interrupt pipe - linking QH 0 gives period 1
and S-mask 0xff. -/
theorem C3_witness :
    (hsIntrPipe 4).typ = TrType.interrupt ∧ (hsIntrPipe 4).speed = usb_high_speed ∧
    c3st.qhs 0 = ehci_qhConf (hsIntrPipe 4) ehci_qhAllocRec ∧
    (c3st.qhs 0).period = 1 ∧
    ((ehci_qhLinkPeriodic c3st 0).qhs 0).info1 &&& 0xff = 0xff :=
  ⟨by decide, by decide, by decide,
    (C3_hs_smask c3st 0 (hsIntrPipe 4) ehci_qhAllocRec (by decide) (by decide)
      (Or.inr (by decide)) (by decide)
      (fun j => by
        show (ehci_qhConf (hsIntrPipe 4) ehci_qhAllocRec).next ≠ some 0
        decide)
      (by decide)).1,
    (C3_hs_smask c3st 0 (hsIntrPipe 4) ehci_qhAllocRec (by decide) (by decide)
      (Or.inr (by decide)) (by decide)
      (fun j => by
        show (ehci_qhConf (hsIntrPipe 4) ehci_qhAllocRec).next ≠ some 0
        decide)
      (by decide)).2⟩

/-! ## C7 - link/unlink round trips -/

/-- C7, counterexample.  Starting from the empty periodic schedule, link
QH 0 (period 1), QH 1 and QH 2 (period 2) - QH 1 heads the even slots with
driver chain 1 → 0.  Linking QH 3 (period 2) splices it between QH 1 and
QH 0 (`c7st3.qhs 1` is its predecessor), and unlinking it immediately
rewrites the predecessor's horizontal pointer to `QH_PTR 0` - but before
the link that pointer held `QH_PTR_INVALID` (the head-insertion branch of
`ehci_qhLinkPeriodic` never writes the new head's horizontal pointer), so
the predecessor's hardware horizontal pointer is *not* restored
bit-for-bit by the link/unlink round trip. -/
theorem C7_counterexample :
    (c7st3.qhs 1).next = some 0 ∧
    ((ehci_qhLinkPeriodic c7st3 3).qhs 1).next = some 3 ∧
    (c7st3.qhs 1).horizontal = QH_PTR_INVALID ∧
    (c7st5.qhs 1).horizontal = QH_PTR 0 ∧
    QH_PTR 0 ≠ QH_PTR_INVALID := by
  decide

lemma linkAsync_at_qh (ast : AsyncSt) (qhId : Nat)
    (hne : qhId ≠ ast.headId)
    (hne2 : (ast.qhs ast.headId).next ≠ some qhId) :
    (ehci_qhLinkAsync ast qhId).qhs qhId =
      { ast.qhs qhId with
          next := (ast.qhs ast.headId).next,
          prev := some ast.headId,
          horizontal := (ast.qhs ast.headId).horizontal } := by
  unfold ehci_qhLinkAsync
  dsimp only
  rcases hnx : (ast.qhs ast.headId).next with - | nx
  · simp [updQ, hne, Ne.symm hne]
  · have hnxq : nx ≠ qhId := fun hc => hne2 (hc ▸ hnx)
    simp [updQ, hne, Ne.symm hne, Ne.symm hnxq]

lemma linkAsync_headId (ast : AsyncSt) (qhId : Nat) :
    (ehci_qhLinkAsync ast qhId).headId = ast.headId := rfl

lemma unlinkAsync_horizontal (st : AsyncSt) (qhId : Nat) (H : Nat)
    (hne : qhId ≠ H)
    (hprev : (st.qhs qhId).prev = some H) :
    ((ehci_qhUnlinkAsync st qhId).qhs H).horizontal = (st.qhs qhId).horizontal := by
  unfold ehci_qhUnlinkAsync
  dsimp only
  rw [hprev]
  dsimp only
  have e1 : (updQ st.qhs H { st.qhs H with horizontal := (st.qhs qhId).horizontal }) qhId
      = st.qhs qhId := by
    simp [updQ, hne]
  rw [e1, hprev]
  dsimp only
  simp only [updQ, if_neg hne]
  rcases hnx : (st.qhs qhId).next with - | nx
  · simp [updQ]
  · by_cases hnxH : nx = H
    · subst hnxH
      simp [updQ, hne, Ne.symm hne]
    · simp [updQ, hne, Ne.symm hne, hnxH, Ne.symm hnxH]

lemma async_roundtrip (ast : AsyncSt) (qhId : Nat)
    (hne : qhId ≠ ast.headId)
    (hne2 : (ast.qhs ast.headId).next ≠ some qhId) :
    ((ehci_qhUnlinkAsync (ehci_qhLinkAsync ast qhId) qhId).qhs ast.headId).horizontal
      = (ast.qhs ast.headId).horizontal := by
  have hq := linkAsync_at_qh ast qhId hne hne2
  have hprev : ((ehci_qhLinkAsync ast qhId).qhs qhId).prev = some ast.headId := by
    rw [hq]
  rw [unlinkAsync_horizontal (ehci_qhLinkAsync ast qhId) qhId ast.headId hne hprev, hq]

lemma unlink_fold_restore (qhId : Nat) :
    ∀ (l : List Nat) (st : PerSt),
      (st.qhs qhId).next = none →
      (∀ i, st.periodicNodes i = some qhId ∨ st.periodicNodes i = none) →
      ((l.foldl (ehci_qhUnlinkPeriodicStep qhId) st).qhs = st.qhs ∧
        ∀ i,
          ((l.foldl (ehci_qhUnlinkPeriodicStep qhId) st).periodicNodes i =
            if st.periodicNodes i = some qhId ∧ i ∈ l then none else st.periodicNodes i) ∧
          ((l.foldl (ehci_qhUnlinkPeriodicStep qhId) st).periodicList i =
            if st.periodicNodes i = some qhId ∧ i ∈ l then QH_PTR_INVALID
            else st.periodicList i)) := by
  intro l
  induction l with
  | nil =>
    intro st h1 h2
    exact ⟨rfl, fun i => ⟨by simp, by simp⟩⟩
  | cons a l ih =>
    intro st h1 h2
    rw [List.foldl_cons]
    rcases h2 a with hsa | hsa
    · have hstep : ehci_qhUnlinkPeriodicStep qhId st a =
          { st with
            periodicList := fun j => if j = a then QH_PTR_INVALID else st.periodicList j,
            periodicNodes := fun j => if j = a then none else st.periodicNodes j } := by
        unfold ehci_qhUnlinkPeriodicStep
        rw [if_pos hsa, h1]
        rfl
      rw [hstep]
      obtain ⟨ihq, ihs⟩ := ih
        { st with
          periodicList := fun j => if j = a then QH_PTR_INVALID else st.periodicList j,
          periodicNodes := fun j => if j = a then none else st.periodicNodes j }
        h1
        (fun i => by
          by_cases hia : i = a
          · subst hia
            exact Or.inr (by simp)
          · rcases h2 i with h | h
            · exact Or.inl (by simpa [hia] using h)
            · exact Or.inr (by simpa [hia] using h))
      refine ⟨ihq, fun i => ?_⟩
      obtain ⟨ih1, ih2⟩ := ihs i
      constructor
      · refine ih1.trans ?_
        show (if (if i = a then none else st.periodicNodes i) = some qhId ∧ i ∈ l then none
            else (if i = a then none else st.periodicNodes i)) = _
        by_cases hia : i = a
        · subst hia
          simp [hsa]
        · simp only [if_neg hia]
          simp [List.mem_cons, hia]
      · refine ih2.trans ?_
        show (if (if i = a then none else st.periodicNodes i) = some qhId ∧ i ∈ l
              then QH_PTR_INVALID
            else (if i = a then QH_PTR_INVALID else st.periodicList i)) = _
        by_cases hia : i = a
        · subst hia
          simp [hsa]
        · simp only [if_neg hia]
          simp [List.mem_cons, hia]
    · have hstep : ehci_qhUnlinkPeriodicStep qhId st a = st := by
        unfold ehci_qhUnlinkPeriodicStep
        rw [if_neg (by rw [hsa]; simp), hsa]
        simp only [predWalk]
      rw [hstep]
      obtain ⟨ihq, ihs⟩ := ih st h1 h2
      refine ⟨ihq, fun i => ?_⟩
      obtain ⟨ih1, ih2⟩ := ihs i
      constructor
      · refine ih1.trans ?_
        by_cases hia : i = a
        · subst hia
          simp [hsa]
        · simp [List.mem_cons, hia]
      · refine ih2.trans ?_
        by_cases hia : i = a
        · subst hia
          simp [hsa]
        · simp [List.mem_cons, hia]

lemma linkPeriodic_empty_shape (st : PerSt) (qhId : Nat)
    (hempty : ∀ i, st.periodicNodes i = none) :
    ((ehci_qhLinkPeriodic st qhId).qhs qhId).next = none ∧
    (∀ i, ((ehci_qhLinkPeriodic st qhId).periodicNodes i = some qhId ∧
        i < EHCI_PERIODIC_SIZE) ∨
      ((ehci_qhLinkPeriodic st qhId).periodicNodes i = st.periodicNodes i ∧
        (ehci_qhLinkPeriodic st qhId).periodicList i = st.periodicList i)) := by
  unfold ehci_qhLinkPeriodic
  simp only [hempty]
  simp only [linkWalk]
  constructor
  · split
    · split <;> simp [updQ]
    · next hc => simp at hc
  · intro i
    split
    · dsimp only
      split
      · next hcl => exact Or.inl ⟨rfl, hcl.2.1⟩
      · exact Or.inr ⟨rfl, rfl⟩
    · next hc => simp at hc

/-- C7, amended: linking a QH into the *async* schedule and unlinking it
immediately restores the predecessor's (the dummy head's) hardware
horizontal pointer bit-for-bit; linking a QH into an *empty* periodic
schedule (every owner slot empty, every frame-list slot `QH_PTR_INVALID`,
as `ehci_init` leaves it) and unlinking it restores every slot of the
owner array and of the hardware frame list bit-for-bit.  In a populated
periodic schedule the round trip can rewrite the predecessor's horizontal
pointer (see the counterexample). -/
theorem C7_link_unlink_restore (ast : AsyncSt) (aqhId : Nat)
    (hne : aqhId ≠ ast.headId)
    (hne2 : (ast.qhs ast.headId).next ≠ some aqhId)
    (st : PerSt) (qhId : Nat)
    (hempty : ∀ i, st.periodicNodes i = none)
    (hinv : ∀ i, st.periodicList i = QH_PTR_INVALID) :
    (((ehci_qhUnlinkAsync (ehci_qhLinkAsync ast aqhId) aqhId).qhs ast.headId).horizontal
      = (ast.qhs ast.headId).horizontal) ∧
    (∀ i, (ehci_qhUnlinkPeriodic (ehci_qhLinkPeriodic st qhId) qhId).periodicNodes i
        = st.periodicNodes i ∧
      (ehci_qhUnlinkPeriodic (ehci_qhLinkPeriodic st qhId) qhId).periodicList i
        = st.periodicList i) := by
  refine ⟨async_roundtrip ast aqhId hne hne2, ?_⟩
  obtain ⟨hnext, hshape⟩ := linkPeriodic_empty_shape st qhId hempty
  have hopt : ∀ i, (ehci_qhLinkPeriodic st qhId).periodicNodes i = some qhId ∨
      (ehci_qhLinkPeriodic st qhId).periodicNodes i = none := by
    intro i
    rcases hshape i with ⟨h, -⟩ | ⟨h, -⟩
    · exact Or.inl h
    · rw [h, hempty i]
      exact Or.inr rfl
  obtain ⟨-, hrest⟩ := unlink_fold_restore qhId (List.range EHCI_PERIODIC_SIZE)
    (ehci_qhLinkPeriodic st qhId) hnext hopt
  intro i
  obtain ⟨hr1, hr2⟩ := hrest i
  constructor
  · show ((List.range EHCI_PERIODIC_SIZE).foldl
      (ehci_qhUnlinkPeriodicStep qhId) (ehci_qhLinkPeriodic st qhId)).periodicNodes i
      = st.periodicNodes i
    rw [hr1]
    rcases hshape i with ⟨h, hlt⟩ | ⟨h, -⟩
    · rw [if_pos ⟨h, List.mem_range.mpr hlt⟩, hempty i]
    · rw [if_neg (fun hc => by rw [h, hempty i] at hc; exact absurd hc.1 (by simp)), h]
  · show ((List.range EHCI_PERIODIC_SIZE).foldl
      (ehci_qhUnlinkPeriodicStep qhId) (ehci_qhLinkPeriodic st qhId)).periodicList i
      = st.periodicList i
    rw [hr2]
    rcases hshape i with ⟨h, hlt⟩ | ⟨h, hl⟩
    · rw [if_pos ⟨h, List.mem_range.mpr hlt⟩, hinv i]
    · rw [if_neg (fun hc => by rw [h, hempty i] at hc; exact absurd hc.1 (by simp)), hl]

/-- C7, witness: a dummy-headed async schedule (head id 0) with QH 1, and
the empty periodic schedule with QH 2 (a full-speed bInterval-3 interrupt
QH, period 2): both round trips restore the state bit-for-bit. -/
theorem C7_witness :
    (1 : Nat) ≠ (⟨fun _ => ehci_qhAllocRec, 0⟩ : AsyncSt).headId ∧
    ((⟨fun _ => ehci_qhAllocRec, 0⟩ : AsyncSt).qhs 0).next ≠ some 1 ∧
    (∀ i, (periodicInit (fun _ => ehci_qhConf (fsIntrPipe 3) ehci_qhAllocRec)).periodicNodes i
      = none) ∧
    (((ehci_qhUnlinkAsync (ehci_qhLinkAsync ⟨fun _ => ehci_qhAllocRec, 0⟩ 1) 1).qhs 0).horizontal
      = ((⟨fun _ => ehci_qhAllocRec, 0⟩ : AsyncSt).qhs 0).horizontal) ∧
    (∀ i, (ehci_qhUnlinkPeriodic (ehci_qhLinkPeriodic
          (periodicInit (fun _ => ehci_qhConf (fsIntrPipe 3) ehci_qhAllocRec)) 2) 2).periodicNodes i
        = (periodicInit (fun _ => ehci_qhConf (fsIntrPipe 3) ehci_qhAllocRec)).periodicNodes i ∧
      (ehci_qhUnlinkPeriodic (ehci_qhLinkPeriodic
          (periodicInit (fun _ => ehci_qhConf (fsIntrPipe 3) ehci_qhAllocRec)) 2) 2).periodicList i
        = (periodicInit (fun _ => ehci_qhConf (fsIntrPipe 3) ehci_qhAllocRec)).periodicList i) :=
  ⟨by decide, by decide, fun i => rfl,
    (C7_link_unlink_restore ⟨fun _ => ehci_qhAllocRec, 0⟩ 1 (by decide) (by decide)
      (periodicInit (fun _ => ehci_qhConf (fsIntrPipe 3) ehci_qhAllocRec)) 2
      (fun i => rfl) (fun i => rfl)).1,
    (C7_link_unlink_restore ⟨fun _ => ehci_qhAllocRec, 0⟩ 1 (by decide) (by decide)
      (periodicInit (fun _ => ehci_qhConf (fsIntrPipe 3) ehci_qhAllocRec)) 2
      (fun i => rfl) (fun i => rfl)).2⟩

end Ehci
